import Mathlib

/-!
Verification of the asset-pipeline tools (`tools/asset_tool.py`,
`tools/cache_validator.py`, `tools/light_tool.py`, `tools/cache_helper.py`,
`tools/rebuild_queue.py`, `tools/shadow_mask.py`) against their
natural-language specification.

Python floats are embedded as exact rationals together with the three
non-finite values; Python `int` is `ℤ`; dynamically-typed JSON slots are
embedded as small inductives recording exactly the distinctions the code
tests (`isinstance` checks, truthiness, identity with `True`).
-/

namespace Pipeline

/-- A Python float argument: a finite value (embedded exactly as a rational)
or one of the non-finite values.  `math.isfinite` is true exactly on
`finite`. -/
inductive PyFloat where
  | finite (q : ℚ)
  | nan
  | inf
  | negInf
deriving DecidableEq, Repr

/-- `math.isfinite(value)`. -/
def PyFloat.isFinite : PyFloat → Bool
  | .finite _ => true
  | _ => false

/-- Python 3 `round` on a rational value: round half to even (banker's
rounding), returning an `int`. -/
def pyRound (q : ℚ) : ℤ :=
  if q - ⌊q⌋ = 1 / 2 then (if 2 ∣ ⌊q⌋ then ⌊q⌋ else ⌊q⌋ + 1) else round q

/-- `SPEED_MULTIPLIERS = (0.25, 0.5, 1.0, 2.0, 4.0)` from `asset_tool.py`
(the identical tuple also appears in `cache_validator.py`). -/
def SPEED_MULTIPLIERS : List ℚ := [1 / 4, 1 / 2, 1, 2, 4]

/-- The scan loop of `_closest_speed_multiplier`: walk the remaining
candidates keeping the first-found minimum absolute difference.  The
accumulator is `(best, best_diff)`. -/
def closestLoop (value : ℚ) : List ℚ → ℚ × ℚ → ℚ × ℚ
  | [], acc => acc
  | c :: rest, acc =>
      if |c - value| < acc.2 then closestLoop value rest (c, |c - value|)
      else closestLoop value rest acc

/-- `_closest_speed_multiplier(value)` from `asset_tool.py` /
`cache_validator.py`: non-finite or non-positive values snap to `1.0`,
otherwise scan the candidates starting from `SPEED_MULTIPLIERS[0] = 0.25`. -/
def closestSpeedMultiplier : PyFloat → ℚ
  | .finite q =>
      if q ≤ 0 then 1
      else (closestLoop q SPEED_MULTIPLIERS.tail (1 / 4, |1 / 4 - q|)).1
  | _ => 1

/-- Python `list(range(0, stop, step))` for `step ≥ 1`, as integers. -/
def pyRangeStep (stop step : ℕ) : List ℤ :=
  (List.range ((stop + step - 1) / step)).map (fun k => ((k * step : ℕ) : ℤ))

/-- `build_speed_frame_sequence(frame_count, multiplier)` from
`asset_tool.py` (the private copy `_build_speed_frame_sequence` in
`cache_validator.py` is textually identical). -/
def buildSpeedFrameSequence (frameCount : ℤ) (multiplier : PyFloat) : List ℤ :=
  if frameCount ≤ 0 then []
  else
    let m := closestSpeedMultiplier multiplier
    if m < 1 then
      let rep := max 1 (pyRound (1 / m))
      (List.range frameCount.toNat).flatMap (fun idx => List.replicate rep.toNat (idx : ℤ))
    else if 1 < m then
      let step := max 1 (pyRound m)
      let seq := pyRangeStep frameCount.toNat step.toNat
      let seq := if seq = [] then [0] else seq
      let lastIndex := frameCount - 1
      if seq.getLast? ≠ some lastIndex then seq ++ [lastIndex] else seq
    else
      (List.range frameCount.toNat).map (fun i : ℕ => (i : ℤ))

/-! Sequence shapes as the specification words them (`§4.5` Speed Resampling
Rule), to compare the code against. -/

/-- Spec-side slow-motion shape: each source index `0..n-1` repeated `rep`
times, in order. -/
def repeatEachIndex (n rep : ℕ) : List ℤ :=
  (List.range n).flatMap fun i => List.replicate rep (i : ℤ)

/-- Spec-side fast-forward shape: indices `0, step, 2*step, …` below `n`,
with `n - 1` appended when the stride did not already end there. -/
def strideWithLast (n step : ℕ) : List ℤ :=
  if (pyRangeStep n step).getLast? = some ((n : ℤ) - 1) then pyRangeStep n step
  else pyRangeStep n step ++ [(n : ℤ) - 1]

/-! Supporting lemmas about the candidate scan. -/

theorem closestLoop_fst_mem (v : ℚ) :
    ∀ (l : List ℚ) (acc : ℚ × ℚ), (closestLoop v l acc).1 = acc.1 ∨ (closestLoop v l acc).1 ∈ l := by
  intro l
  induction l with
  | nil => intro acc; left; rfl
  | cons c rest ih =>
      intro acc
      by_cases h : |c - v| < acc.2
      · rcases ih (c, |c - v|) with h' | h'
        · right; rw [closestLoop, if_pos h]; exact h' ▸ List.mem_cons_self c rest
        · right; rw [closestLoop, if_pos h]; exact List.mem_cons_of_mem c h'
      · rcases ih acc with h' | h'
        · left; rw [closestLoop, if_neg h]; exact h'
        · right; rw [closestLoop, if_neg h]; exact List.mem_cons_of_mem c h'

theorem closestLoop_snd_le (v : ℚ) :
    ∀ (l : List ℚ) (acc : ℚ × ℚ),
      (closestLoop v l acc).2 ≤ acc.2 ∧ ∀ c ∈ l, (closestLoop v l acc).2 ≤ |c - v| := by
  intro l
  induction l with
  | nil => intro acc; exact ⟨le_refl _, by simp⟩
  | cons c rest ih =>
      intro acc
      by_cases h : |c - v| < acc.2
      · rw [closestLoop, if_pos h]
        obtain ⟨h1, h2⟩ := ih (c, |c - v|)
        refine ⟨h1.trans h.le, ?_⟩
        intro c' hc'
        rcases List.mem_cons.mp hc' with rfl | hc'
        · exact h1
        · exact h2 c' hc'
      · rw [closestLoop, if_neg h]
        obtain ⟨h1, h2⟩ := ih acc
        refine ⟨h1, ?_⟩
        intro c' hc'
        rcases List.mem_cons.mp hc' with rfl | hc'
        · exact h1.trans (not_lt.mp h)
        · exact h2 c' hc'

theorem closestLoop_snd_eq (v : ℚ) :
    ∀ (l : List ℚ) (acc : ℚ × ℚ), acc.2 = |acc.1 - v| →
      (closestLoop v l acc).2 = |(closestLoop v l acc).1 - v| := by
  intro l
  induction l with
  | nil => intro acc h; exact h
  | cons c rest ih =>
      intro acc h
      by_cases hlt : |c - v| < acc.2
      · rw [closestLoop, if_pos hlt]; exact ih (c, |c - v|) rfl
      · rw [closestLoop, if_neg hlt]; exact ih acc h

/-- The snapped multiplier is always one of the five candidates. -/
theorem closestSpeedMultiplier_mem (v : PyFloat) :
    closestSpeedMultiplier v ∈ SPEED_MULTIPLIERS := by
  cases v with
  | finite q =>
      by_cases hq : q ≤ 0
      · simp [closestSpeedMultiplier, hq, SPEED_MULTIPLIERS]
      · rw [closestSpeedMultiplier]
        simp only [hq, if_false]
        rcases closestLoop_fst_mem q SPEED_MULTIPLIERS.tail (1 / 4, |1 / 4 - q|) with h | h
        · rw [h]; simp [SPEED_MULTIPLIERS]
        · exact List.mem_of_mem_tail h
  | nan => simp [closestSpeedMultiplier, SPEED_MULTIPLIERS]
  | inf => simp [closestSpeedMultiplier, SPEED_MULTIPLIERS]
  | negInf => simp [closestSpeedMultiplier, SPEED_MULTIPLIERS]

/-- For a finite positive multiplier the snap is a nearest candidate. -/
theorem closestSpeedMultiplier_nearest (q : ℚ) (hq : 0 < q) :
    ∀ c ∈ SPEED_MULTIPLIERS, |closestSpeedMultiplier (.finite q) - q| ≤ |c - q| := by
  intro c hc
  rw [closestSpeedMultiplier]
  simp only [not_le.mpr hq, if_false]
  have hsnd := closestLoop_snd_eq q SPEED_MULTIPLIERS.tail (1 / 4, |1 / 4 - q|) rfl
  obtain ⟨hle, hall⟩ := closestLoop_snd_le q SPEED_MULTIPLIERS.tail (1 / 4, |1 / 4 - q|)
  rw [← hsnd]
  rcases List.mem_cons.mp hc with rfl | hc'
  · exact hle
  · exact hall c hc'

/-- Unfold the slow-motion branch of the sequence builder. -/
theorem buildSpeedFrameSequence_slow (n : ℤ) (v : PyFloat) (hn : 0 < n)
    (hm : closestSpeedMultiplier v < 1) :
    buildSpeedFrameSequence n v
      = repeatEachIndex n.toNat (max 1 (pyRound (1 / closestSpeedMultiplier v))).toNat := by
  rw [buildSpeedFrameSequence, if_neg (by omega), repeatEachIndex]
  simp only [hm, if_pos]

/-- Unfold the pass-through branch of the sequence builder. -/
theorem buildSpeedFrameSequence_one (n : ℤ) (v : PyFloat) (hn : 0 < n)
    (hm : closestSpeedMultiplier v = 1) :
    buildSpeedFrameSequence n v = (List.range n.toNat).map (fun i : ℕ => (i : ℤ)) := by
  rw [buildSpeedFrameSequence, if_neg (by omega)]
  simp only [hm]
  norm_num

/-- Elements generated by the stride stay below the frame count. -/
theorem stride_elt_lt (k s j : ℕ) (hs : 1 ≤ s) (hk : 1 ≤ k)
    (hj : j < (k + s - 1) / s) : j * s < k := by
  have h1 : (j + 1) * s ≤ ((k + s - 1) / s) * s := Nat.mul_le_mul_right s hj
  have h2 : ((k + s - 1) / s) * s ≤ k + s - 1 := Nat.div_mul_le_self _ _
  have h3 : (j + 1) * s ≤ k + s - 1 := h1.trans h2
  have h4 : j * s + s ≤ k - 1 + s := by
    have : k + s - 1 = k - 1 + s := by omega
    calc j * s + s = (j + 1) * s := by ring
    _ ≤ k + s - 1 := h3
    _ = k - 1 + s := this
  omega

/-- The stride base list is non-empty when there is at least one frame. -/
theorem pyRangeStep_ne_nil (k s : ℕ) (hs : 1 ≤ s) (hk : 1 ≤ k) :
    pyRangeStep k s ≠ [] := by
  rw [pyRangeStep]
  have : 1 ≤ (k + s - 1) / s := (Nat.one_le_div_iff (by omega)).mpr (by omega)
  simp only [ne_eq, List.map_eq_nil_iff, List.range_eq_nil]
  omega

/-- The stride base list starts with index `0`. -/
theorem pyRangeStep_head (k s : ℕ) (hs : 1 ≤ s) (hk : 1 ≤ k) :
    (pyRangeStep k s).head? = some 0 := by
  rw [pyRangeStep]
  obtain ⟨t, ht⟩ : ∃ t, (k + s - 1) / s = t + 1 := by
    have : 1 ≤ (k + s - 1) / s := (Nat.one_le_div_iff (by omega)).mpr (by omega)
    exact ⟨(k + s - 1) / s - 1, by omega⟩
  rw [ht, List.range_succ_eq_map]
  simp

/-- Unfold the fast-forward branch of the sequence builder: with at least
one frame the `if not sequence` guard is dead, and the builder produces
exactly the spec-side stride shape. -/
theorem buildSpeedFrameSequence_fast (n : ℤ) (v : PyFloat) (hn : 0 < n)
    (hm : 1 < closestSpeedMultiplier v) :
    buildSpeedFrameSequence n v
      = strideWithLast n.toNat (max 1 (pyRound (closestSpeedMultiplier v))).toNat := by
  have hs : (1 : ℕ) ≤ (max 1 (pyRound (closestSpeedMultiplier v))).toNat := by
    have := le_max_left (1 : ℤ) (pyRound (closestSpeedMultiplier v)); omega
  have hk : 1 ≤ n.toNat := by omega
  have hne := pyRangeStep_ne_nil n.toNat _ hs hk
  have hcast : ((n.toNat : ℤ)) = n := Int.toNat_of_nonneg hn.le
  rw [buildSpeedFrameSequence, if_neg (by omega), strideWithLast, hcast]
  simp only [not_lt.mpr hm.le, if_false, hm, if_pos, hne, ite_false]
  by_cases h :
      (pyRangeStep n.toNat (max 1 (pyRound (closestSpeedMultiplier v))).toNat).getLast?
        = some (n - 1)
  · simp [h]
  · simp [h]

/-- The slow-motion shape starts at index `0`. -/
theorem repeatEachIndex_head (k r : ℕ) (hk : 1 ≤ k) (hr : 1 ≤ r) :
    (repeatEachIndex k r).head? = some 0 := by
  obtain ⟨t, rfl⟩ : ∃ t, k = t + 1 := ⟨k - 1, by omega⟩
  obtain ⟨u, rfl⟩ : ∃ u, r = u + 1 := ⟨r - 1, by omega⟩
  rw [repeatEachIndex, List.range_succ_eq_map]
  simp [List.replicate_succ]

/-- Every element of the slow-motion shape is a valid source index. -/
theorem repeatEachIndex_bounds (k r : ℕ) (x : ℤ) (hx : x ∈ repeatEachIndex k r) :
    0 ≤ x ∧ x ≤ (k : ℤ) - 1 := by
  rw [repeatEachIndex, List.mem_flatMap] at hx
  obtain ⟨i, hi, hxi⟩ := hx
  rw [List.mem_range] at hi
  rw [List.eq_of_mem_replicate hxi]
  have : (i : ℤ) < (k : ℤ) := by exact_mod_cast hi
  omega

/-- The fast-forward shape starts at index `0`. -/
theorem strideWithLast_head (k s : ℕ) (hk : 1 ≤ k) (hs : 1 ≤ s) :
    (strideWithLast k s).head? = some 0 := by
  obtain ⟨b, bs, hb⟩ := List.exists_cons_of_ne_nil (pyRangeStep_ne_nil k s hs hk)
  have hhead := pyRangeStep_head k s hs hk
  rw [hb] at hhead
  simp only [List.head?_cons, Option.some.injEq] at hhead
  rw [strideWithLast, hb]
  subst hhead
  split <;> simp

/-- Every element of the fast-forward shape is a valid source index. -/
theorem strideWithLast_bounds (k s : ℕ) (hk : 1 ≤ k) (hs : 1 ≤ s) (x : ℤ)
    (hx : x ∈ strideWithLast k s) : 0 ≤ x ∧ x ≤ (k : ℤ) - 1 := by
  have hbase : ∀ y ∈ pyRangeStep k s, 0 ≤ y ∧ y ≤ (k : ℤ) - 1 := by
    intro y hy
    rw [pyRangeStep, List.mem_map] at hy
    obtain ⟨j, hj, rfl⟩ := hy
    rw [List.mem_range] at hj
    have hlt : j * s < k := stride_elt_lt k s j hs hk hj
    have : ((j * s : ℕ) : ℤ) < (k : ℤ) := by exact_mod_cast hlt
    constructor
    · positivity
    · omega
  rw [strideWithLast] at hx
  by_cases h : (pyRangeStep k s).getLast? = some ((k : ℤ) - 1)
  · rw [if_pos h] at hx
    exact hbase x hx
  · rw [if_neg h, List.mem_append] at hx
    rcases hx with hx | hx
    · exact hbase x hx
    · rw [List.mem_singleton] at hx
      subst hx
      constructor
      · have : (1 : ℤ) ≤ (k : ℤ) := by exact_mod_cast hk
        omega
      · omega

/-- The pass-through shape starts at index `0`. -/
theorem rangeMap_head (k : ℕ) (hk : 1 ≤ k) :
    ((List.range k).map (fun i : ℕ => (i : ℤ))).head? = some 0 := by
  obtain ⟨t, rfl⟩ : ∃ t, k = t + 1 := ⟨k - 1, by omega⟩
  rw [List.range_succ_eq_map]
  simp

/-- Every element of the pass-through shape is a valid source index. -/
theorem rangeMap_bounds (k : ℕ) (x : ℤ) (hx : x ∈ (List.range k).map (fun i : ℕ => (i : ℤ))) :
    0 ≤ x ∧ x ≤ (k : ℤ) - 1 := by
  simp only [List.mem_map, List.mem_range] at hx
  obtain ⟨i, hi, rfl⟩ := hx
  have : (i : ℤ) < (k : ℤ) := by exact_mod_cast hi
  omega

/-- `pyRound` is the identity on integers. -/
theorem pyRound_intCast (z : ℤ) : pyRound (z : ℚ) = z := by
  have h : ((z : ℚ)) - ⌊(z : ℚ)⌋ ≠ 1 / 2 := by
    rw [Int.floor_intCast]; norm_num
  rw [pyRound, if_neg h, round_intCast]

theorem pyRound_two : pyRound (2 : ℚ) = 2 := by
  have := pyRound_intCast 2
  norm_num at this
  exact this

theorem pyRound_four : pyRound (4 : ℚ) = 4 := by
  have := pyRound_intCast 4
  norm_num at this
  exact this

/-- C1: for every positive frame count and every speed multiplier,
`build_speed_frame_sequence` first snaps the multiplier to the nearest of
{0.25, 0.5, 1.0, 2.0, 4.0}; for a snapped multiplier < 1.0 it repeats each
source index 0..frame_count-1 `round(1/multiplier)` times in order, for a
snapped multiplier > 1.0 it takes indices 0, step, 2*step, … with
`step = round(multiplier)` and appends frame_count-1 if not already last,
and for multiplier 1.0 it returns 0..frame_count-1; in particular the
0.5/6-frame and 2.0/6-frame examples hold. -/
theorem speed_resampling_rule (n : ℤ) (v : PyFloat) (hn : 0 < n) :
    closestSpeedMultiplier v ∈ SPEED_MULTIPLIERS
    ∧ (∀ q : ℚ, v = .finite q → 0 < q →
        ∀ c ∈ SPEED_MULTIPLIERS, |closestSpeedMultiplier v - q| ≤ |c - q|)
    ∧ (closestSpeedMultiplier v < 1 →
        buildSpeedFrameSequence n v
          = repeatEachIndex n.toNat (pyRound (1 / closestSpeedMultiplier v)).toNat)
    ∧ (1 < closestSpeedMultiplier v →
        buildSpeedFrameSequence n v
          = strideWithLast n.toNat (pyRound (closestSpeedMultiplier v)).toNat)
    ∧ (closestSpeedMultiplier v = 1 →
        buildSpeedFrameSequence n v = (List.range n.toNat).map (fun i : ℕ => (i : ℤ)))
    ∧ buildSpeedFrameSequence 6 (.finite (1 / 2)) = [0, 0, 1, 1, 2, 2, 3, 3, 4, 4, 5, 5]
    ∧ buildSpeedFrameSequence 6 (.finite 2) = [0, 2, 4, 5] := by
  have hmem := closestSpeedMultiplier_mem v
  simp only [SPEED_MULTIPLIERS, List.mem_cons, List.not_mem_nil, or_false] at hmem
  refine ⟨closestSpeedMultiplier_mem v, ?_, ?_, ?_, ?_, ?_, ?_⟩
  · intro q hq hpos
    subst hq
    exact closestSpeedMultiplier_nearest q hpos
  · intro hlt
    rw [buildSpeedFrameSequence_slow n v hn hlt]
    rcases hmem with h | h | h | h | h
    · rw [h]
      have h4 : (1 : ℚ) / (1 / 4) = ((4 : ℤ) : ℚ) := by norm_num
      rw [h4, pyRound_intCast]
      norm_num
    · rw [h]
      have h2 : (1 : ℚ) / (1 / 2) = ((2 : ℤ) : ℚ) := by norm_num
      rw [h2, pyRound_intCast]
      norm_num
    · rw [h] at hlt; norm_num at hlt
    · rw [h] at hlt; norm_num at hlt
    · rw [h] at hlt; norm_num at hlt
  · intro hgt
    rw [buildSpeedFrameSequence_fast n v hn hgt]
    rcases hmem with h | h | h | h | h
    · rw [h] at hgt; norm_num at hgt
    · rw [h] at hgt; norm_num at hgt
    · rw [h] at hgt; norm_num at hgt
    · rw [h, pyRound_two]; norm_num
    · rw [h, pyRound_four]; norm_num
  · exact buildSpeedFrameSequence_one n v hn
  · norm_num [buildSpeedFrameSequence, closestSpeedMultiplier, SPEED_MULTIPLIERS, closestLoop,
      pyRound, pyRangeStep, List.range_succ, abs]
    decide
  · norm_num [buildSpeedFrameSequence, closestSpeedMultiplier, SPEED_MULTIPLIERS, closestLoop,
      pyRound, pyRangeStep, List.range_succ, abs]
    decide

/-- Closed-form witness for the C1 theorem at frame count 6. -/
theorem speed_resampling_rule_witness :
    closestSpeedMultiplier (.finite 2) ∈ SPEED_MULTIPLIERS
    ∧ (∀ q : ℚ, PyFloat.finite 2 = .finite q → 0 < q →
        ∀ c ∈ SPEED_MULTIPLIERS, |closestSpeedMultiplier (.finite 2) - q| ≤ |c - q|)
    ∧ (closestSpeedMultiplier (.finite 2) < 1 →
        buildSpeedFrameSequence 6 (.finite 2)
          = repeatEachIndex (6 : ℤ).toNat (pyRound (1 / closestSpeedMultiplier (.finite 2))).toNat)
    ∧ (1 < closestSpeedMultiplier (.finite 2) →
        buildSpeedFrameSequence 6 (.finite 2)
          = strideWithLast (6 : ℤ).toNat (pyRound (closestSpeedMultiplier (.finite 2))).toNat)
    ∧ (closestSpeedMultiplier (.finite 2) = 1 →
        buildSpeedFrameSequence 6 (.finite 2)
          = (List.range (6 : ℤ).toNat).map (fun i : ℕ => (i : ℤ)))
    ∧ buildSpeedFrameSequence 6 (.finite (1 / 2)) = [0, 0, 1, 1, 2, 2, 3, 3, 4, 4, 5, 5]
    ∧ buildSpeedFrameSequence 6 (.finite 2) = [0, 2, 4, 5] :=
  speed_resampling_rule 6 (.finite 2) (by decide)

/-- C9: for every frame_count ≥ 1 and every float multiplier whatsoever
(NaN, infinities, zero and negative values included), the sequence is
non-empty, starts at source index 0, stays within [0, frame_count-1], and
non-finite / non-positive multipliers behave exactly like 1.0. -/
theorem speed_sequence_safety (n : ℤ) (v : PyFloat) (hn : 1 ≤ n) :
    buildSpeedFrameSequence n v ≠ []
    ∧ (buildSpeedFrameSequence n v).head? = some 0
    ∧ (∀ x ∈ buildSpeedFrameSequence n v, 0 ≤ x ∧ x ≤ n - 1)
    ∧ (v.isFinite = false →
        buildSpeedFrameSequence n v = buildSpeedFrameSequence n (.finite 1))
    ∧ (∀ q : ℚ, v = .finite q → q ≤ 0 →
        buildSpeedFrameSequence n v = buildSpeedFrameSequence n (.finite 1)) := by
  have hn0 : 0 < n := by omega
  have hk : 1 ≤ n.toNat := by omega
  have hone : closestSpeedMultiplier (.finite 1) = 1 := by
    norm_num [closestSpeedMultiplier, SPEED_MULTIPLIERS, closestLoop, abs]
  have head_bounds :
      (buildSpeedFrameSequence n v).head? = some 0
      ∧ ∀ x ∈ buildSpeedFrameSequence n v, 0 ≤ x ∧ x ≤ n - 1 := by
    rcases lt_trichotomy (closestSpeedMultiplier v) 1 with hm | hm | hm
    · rw [buildSpeedFrameSequence_slow n v hn0 hm]
      have hr : 1 ≤ (max 1 (pyRound (1 / closestSpeedMultiplier v))).toNat := by
        have := le_max_left (1 : ℤ) (pyRound (1 / closestSpeedMultiplier v)); omega
      refine ⟨repeatEachIndex_head _ _ hk hr, ?_⟩
      intro x hx
      have := repeatEachIndex_bounds _ _ x hx
      omega
    · rw [buildSpeedFrameSequence_one n v hn0 hm]
      refine ⟨rangeMap_head _ hk, ?_⟩
      intro x hx
      have := rangeMap_bounds _ x hx
      omega
    · rw [buildSpeedFrameSequence_fast n v hn0 hm]
      have hs : 1 ≤ (max 1 (pyRound (closestSpeedMultiplier v))).toNat := by
        have := le_max_left (1 : ℤ) (pyRound (closestSpeedMultiplier v)); omega
      refine ⟨strideWithLast_head _ _ hk hs, ?_⟩
      intro x hx
      have := strideWithLast_bounds _ _ hk hs x hx
      omega
  refine ⟨?_, head_bounds.1, head_bounds.2, ?_, ?_⟩
  · intro h
    have := head_bounds.1
    rw [h] at this
    simp at this
  · intro hnf
    have hv1 : closestSpeedMultiplier v = 1 := by
      cases v with
      | finite q => simp [PyFloat.isFinite] at hnf
      | nan => rfl
      | inf => rfl
      | negInf => rfl
    rw [buildSpeedFrameSequence_one n v hn0 hv1, buildSpeedFrameSequence_one n _ hn0 hone]
  · intro q hq hqle
    subst hq
    have hv1 : closestSpeedMultiplier (.finite q) = 1 := by
      simp [closestSpeedMultiplier, hqle]
    rw [buildSpeedFrameSequence_one n _ hn0 hv1, buildSpeedFrameSequence_one n _ hn0 hone]

/-- Closed-form witness for the C9 theorem at frame count 4 and a NaN
multiplier. -/
theorem speed_sequence_safety_witness :
    buildSpeedFrameSequence 4 .nan ≠ []
    ∧ (buildSpeedFrameSequence 4 .nan).head? = some 0
    ∧ (∀ x ∈ buildSpeedFrameSequence 4 .nan, 0 ≤ x ∧ x ≤ 4 - 1)
    ∧ (PyFloat.isFinite .nan = false →
        buildSpeedFrameSequence 4 .nan = buildSpeedFrameSequence 4 (.finite 1))
    ∧ (∀ q : ℚ, PyFloat.nan = .finite q → q ≤ 0 →
        buildSpeedFrameSequence 4 .nan = buildSpeedFrameSequence 4 (.finite 1)) :=
  speed_sequence_safety 4 .nan (by decide)

/-!
## The orchestrator's per-animation flag epilogue (`asset_tool.py`)

`AssetTool.generate_animation_cache_for_asset` records the flagged frame
indices before submitting tasks, collects the worker results, and clears
exactly those indices when — and only when — no result string contains
"Error".
-/

/-- A JSON value found in a manifest slot such as `needs_rebuild`: either an
actual `bool`, or any other value together with its Python truthiness.  The
code distinguishes values only by `is True` identity and by `bool(...)`. -/
inductive PyVal where
  | pybool (b : Bool)
  | pyother (truthy : Bool)
deriving DecidableEq, Repr

/-- Python truthiness, `bool(value)`; an absent key (`dict.get` returning
`None`) is falsy. -/
def PyVal.truthy : PyVal → Bool
  | .pybool b => b
  | .pyother t => t

/-- An element of an animation's `frames` list: a dict carrying an optional
`needs_rebuild` value (`none` = key absent), or a non-dict value. -/
inductive Frame where
  | notDict
  | fdict (nr : Option PyVal)
deriving DecidableEq, Repr

/-- `isinstance(entry, dict) and entry.get("needs_rebuild") is True`, the
test `_frames_requiring_rebuild` applies per entry. -/
def frameFlagged : Frame → Bool
  | .fdict (some (.pybool true)) => true
  | _ => false

/-- The `enumerate` loop of `_frames_requiring_rebuild`, with the running
index made explicit. -/
def framesRequiringRebuildAux : ℕ → List Frame → List ℕ
  | _, [] => []
  | i, f :: rest =>
      if frameFlagged f then i :: framesRequiringRebuildAux (i + 1) rest
      else framesRequiringRebuildAux (i + 1) rest

/-- `AssetTool._frames_requiring_rebuild(frames)`. -/
def framesRequiringRebuild (frames : List Frame) : List ℕ :=
  framesRequiringRebuildAux 0 frames

/-- One worker-pool result for a frame task: `process_frame_task` returns
`"Frame i: OK"` on success and `"Frame i: Error - …"` on a caught
exception, and the collector tests `"Error" in result`. -/
inductive TaskResult where
  | ok
  | error
deriving DecidableEq, Repr

def TaskResult.isError : TaskResult → Bool
  | .ok => false
  | .error => true

/-- `frames_meta[idx]["needs_rebuild"] = False` for one index, guarded by
`0 <= idx < len(frames_meta)`; a non-dict entry cannot be written and is
left alone (flagged indices always hold dicts). -/
def clearFlagAt (frames : List Frame) (idx : ℕ) : List Frame :=
  match frames[idx]? with
  | some (.fdict _) => frames.set idx (.fdict (some (.pybool false)))
  | _ => frames

/-- The flag epilogue of `generate_animation_cache_for_asset` for one
animation: with any errored task the frames are left untouched, otherwise
every index recorded as flagged before the run is written `False`. -/
def animationFlagEpilogue (frames : List Frame) (results : List TaskResult) : List Frame :=
  if results.any TaskResult.isError then frames
  else (framesRequiringRebuild frames).foldl clearFlagAt frames

/-- Spec-side per-entry description of a zero-error run: exactly the
entries flagged `needs_rebuild=true` come out `false`, all others keep
their value. -/
def clearIfFlagged : Frame → Frame
  | .fdict (some (.pybool true)) => .fdict (some (.pybool false))
  | f => f

theorem clearFlagAt_getElem (frames : List Frame) (i j : ℕ) :
    (clearFlagAt frames i)[j]?
      = if j = i then
          (match frames[j]? with
           | some (.fdict v) => some (.fdict (some (.pybool false)))
           | o => o)
        else frames[j]? := by
  rw [clearFlagAt]
  by_cases hji : j = i
  · subst hji
    match h : frames[j]? with
    | none => simp [h]
    | some .notDict => simp [h]
    | some (.fdict v) =>
        simp only [h]
        have hlt : j < frames.length := (List.getElem?_eq_some.mp h).1
        rw [List.getElem?_set_eq_of_lt _ hlt]
        simp
  · match h : frames[i]? with
    | none => simp [h, hji]
    | some .notDict => simp [h, hji]
    | some (.fdict v) =>
        simp only [h]
        rw [List.getElem?_set_ne (fun hh => hji hh.symm)]
        simp [hji]

theorem foldl_clearFlagAt_getElem (idxs : List ℕ) :
    ∀ (frames : List Frame) (j : ℕ),
      (idxs.foldl clearFlagAt frames)[j]?
        = if j ∈ idxs then
            (match frames[j]? with
             | some (.fdict v) => some (.fdict (some (.pybool false)))
             | o => o)
          else frames[j]? := by
  induction idxs with
  | nil => intro frames j; simp
  | cons i rest ih =>
      intro frames j
      rw [List.foldl_cons, ih (clearFlagAt frames i) j, clearFlagAt_getElem frames i j]
      by_cases hj : j ∈ rest
      · rw [if_pos hj, if_pos (List.mem_cons_of_mem i hj)]
        by_cases hji : j = i
        · rw [if_pos hji]
          match h : frames[j]? with
          | none => simp
          | some .notDict => simp
          | some (.fdict v) => simp
        · rw [if_neg hji]
      · by_cases hji : j = i
        · rw [if_neg hj, if_pos hji, if_pos (by simp [hji])]
        · rw [if_neg hj, if_neg hji, if_neg (by simp [hji, hj])]

theorem mem_framesRequiringRebuildAux (frames : List Frame) :
    ∀ (i j : ℕ),
      (j ∈ framesRequiringRebuildAux i frames
        ↔ ∃ k, j = i + k ∧ ∃ f, frames[k]? = some f ∧ frameFlagged f = true) := by
  induction frames with
  | nil => intro i j; simp [framesRequiringRebuildAux]
  | cons f rest ih =>
      intro i j
      rw [framesRequiringRebuildAux]
      by_cases hf : frameFlagged f
      · rw [if_pos hf]
        constructor
        · intro hmem
          rcases List.mem_cons.mp hmem with rfl | hmem
          · exact ⟨0, by omega, f, by simp, hf⟩
          · obtain ⟨k, hk, g, hg, hflag⟩ := (ih (i + 1) j).mp hmem
            exact ⟨k + 1, by omega, g, by simpa using hg, hflag⟩
        · rintro ⟨k, rfl, g, hg, hflag⟩
          match k, hg with
          | 0, hg =>
              simp only [List.getElem?_cons_zero, Option.some.injEq] at hg
              exact List.mem_cons_self _ _
          | k + 1, hg =>
              refine List.mem_cons_of_mem _ ((ih (i + 1) (i + (k + 1))).mpr ?_)
              exact ⟨k, by omega, g, by simpa using hg, hflag⟩
      · rw [if_neg hf]
        rw [ih (i + 1) j]
        constructor
        · rintro ⟨k, rfl, g, hg, hflag⟩
          exact ⟨k + 1, by omega, g, by simpa using hg, hflag⟩
        · rintro ⟨k, rfl, g, hg, hflag⟩
          match k, hg with
          | 0, hg =>
              simp only [List.getElem?_cons_zero, Option.some.injEq] at hg
              subst hg
              exact absurd hflag (by simp [hf])
          | k + 1, hg =>
              exact ⟨k, by omega, g, by simpa using hg, hflag⟩

theorem mem_framesRequiringRebuild (frames : List Frame) (j : ℕ) :
    j ∈ framesRequiringRebuild frames
      ↔ ∃ f, frames[j]? = some f ∧ frameFlagged f = true := by
  rw [framesRequiringRebuild, mem_framesRequiringRebuildAux frames 0 j]
  constructor
  · rintro ⟨k, rfl, hrest⟩
    simpa using hrest
  · intro h
    exact ⟨j, by omega, h⟩

/-- C2: per animation, if at least one per-frame task errored, every frame
entry keeps exactly the `needs_rebuild` value it had before the run; with
zero errors exactly the entries flagged true before the run are set to
false and all others are untouched. -/
theorem animation_flag_epilogue_spec (frames : List Frame) (results : List TaskResult) :
    (results.any TaskResult.isError = true →
      animationFlagEpilogue frames results = frames)
    ∧ (results.any TaskResult.isError = false →
      animationFlagEpilogue frames results = frames.map clearIfFlagged) := by
  constructor
  · intro h
    rw [animationFlagEpilogue, if_pos h]
  · intro h
    rw [animationFlagEpilogue, if_neg (by rw [h]; exact Bool.false_ne_true)]
    apply List.ext_getElem?
    intro j
    rw [foldl_clearFlagAt_getElem, List.getElem?_map]
    by_cases hj : j ∈ framesRequiringRebuild frames
    · rw [if_pos hj]
      obtain ⟨f, hf, hflag⟩ := (mem_framesRequiringRebuild frames j).mp hj
      rw [hf]
      match f, hflag with
      | .fdict (some (.pybool true)), _ => simp [clearIfFlagged]
    · rw [if_neg hj]
      match hf : frames[j]? with
      | none => simp
      | some f =>
          have hflag : frameFlagged f = false := by
            by_contra hc
            exact hj ((mem_framesRequiringRebuild frames j).mpr
              ⟨f, hf, by revert hc; cases frameFlagged f <;> simp⟩)
          match f, hflag with
          | .notDict, _ => simp [clearIfFlagged]
          | .fdict none, _ => simp [clearIfFlagged]
          | .fdict (some (.pybool false)), _ => simp [clearIfFlagged]
          | .fdict (some (.pyother t)), _ => simp [clearIfFlagged]

/-- Closed-form witness for the C2 theorem: a two-frame animation with one
flagged entry, evaluated under an errored run and under a clean run. -/
theorem animation_flag_epilogue_spec_witness :
    (([TaskResult.error] : List TaskResult).any TaskResult.isError = true →
      animationFlagEpilogue [Frame.fdict (some (.pybool true)), Frame.fdict (some (.pybool false))]
        [TaskResult.error]
        = [Frame.fdict (some (.pybool true)), Frame.fdict (some (.pybool false))])
    ∧ (([TaskResult.error] : List TaskResult).any TaskResult.isError = false →
      animationFlagEpilogue [Frame.fdict (some (.pybool true)), Frame.fdict (some (.pybool false))]
        [TaskResult.error]
        = [Frame.fdict (some (.pybool true)),
            Frame.fdict (some (.pybool false))].map clearIfFlagged) :=
  animation_flag_epilogue_spec
    [Frame.fdict (some (.pybool true)), Frame.fdict (some (.pybool false))] [TaskResult.error]

/-!
## `cache_helper.py`: normalized JSON compare-and-update

JSON documents are embedded as `JVal`; the file system visible to
`CacheHelper` is a map from paths to parse results (`none` = missing or
unparseable, both of which `_load_json_file` collapses to `None`).
-/

/-- A JSON primitive (returned unchanged by `_normalize`). -/
inductive JAtom where
  | anull
  | abool (b : Bool)
  | anum (q : ℚ)
  | astr (s : String)
deriving DecidableEq, Repr

/-- A parsed JSON document.  Objects are association lists in insertion
order; `json.load` produces dicts, so keys are unique. -/
inductive JVal where
  | atom (a : JAtom)
  | jarr (xs : List JVal)
  | jobj (fields : List (String × JVal))

mutual
def JVal.decEq : (a b : JVal) → Decidable (a = b)
  | .atom x, .atom y =>
      if h : x = y then isTrue (by rw [h])
      else isFalse (by intro hh; injection hh; contradiction)
  | .atom _, .jarr _ => isFalse (fun h => JVal.noConfusion h)
  | .atom _, .jobj _ => isFalse (fun h => JVal.noConfusion h)
  | .jarr _, .atom _ => isFalse (fun h => JVal.noConfusion h)
  | .jarr xs, .jarr ys =>
      match JVal.decEqList xs ys with
      | isTrue h => isTrue (by rw [h])
      | isFalse h => isFalse (by intro hh; injection hh; contradiction)
  | .jarr _, .jobj _ => isFalse (fun h => JVal.noConfusion h)
  | .jobj _, .atom _ => isFalse (fun h => JVal.noConfusion h)
  | .jobj _, .jarr _ => isFalse (fun h => JVal.noConfusion h)
  | .jobj xs, .jobj ys =>
      match JVal.decEqFields xs ys with
      | isTrue h => isTrue (by rw [h])
      | isFalse h => isFalse (by intro hh; injection hh; contradiction)

def JVal.decEqList : (xs ys : List JVal) → Decidable (xs = ys)
  | [], [] => isTrue rfl
  | [], _ :: _ => isFalse (by simp)
  | _ :: _, [] => isFalse (by simp)
  | x :: xs, y :: ys =>
      match JVal.decEq x y, JVal.decEqList xs ys with
      | isTrue h1, isTrue h2 => isTrue (by rw [h1, h2])
      | isFalse h1, _ => isFalse (by intro hh; injection hh; contradiction)
      | _, isFalse h2 => isFalse (by intro hh; injection hh; contradiction)

def JVal.decEqFields : (xs ys : List (String × JVal)) → Decidable (xs = ys)
  | [], [] => isTrue rfl
  | [], _ :: _ => isFalse (by simp)
  | _ :: _, [] => isFalse (by simp)
  | (k1, v1) :: xs, (k2, v2) :: ys =>
      if h0 : k1 = k2 then
        match JVal.decEq v1 v2, JVal.decEqFields xs ys with
        | isTrue h1, isTrue h2 => isTrue (by rw [h0, h1, h2])
        | isFalse h1, _ =>
            isFalse (by intro hh; injection hh with hp hr; injection hp; contradiction)
        | _, isFalse h2 => isFalse (by intro hh; injection hh with hp hr; contradiction)
      else isFalse (by intro hh; injection hh with hp hr; injection hp; contradiction)
end

instance : DecidableEq JVal := JVal.decEq

/-- `sorted(obj.keys())` applied to an association list: a stable sort of
the fields by key.  (Python sorts the unique keys and rebuilds the dict in
that order; with unique keys this is the same as stably sorting the
key/value pairs.) -/
def sortByKey (fields : List (String × JVal)) : List (String × JVal) :=
  fields.insertionSort (fun a b => a.1 ≤ b.1)

mutual
/-- `CacheHelper._normalize(obj)`: recursively sort mapping keys, keep list
order, return primitives as-is.  (The source normalizes each value while
rebuilding the dict in sorted key order; since keys are untouched,
normalizing the values first and then sorting by key is the same map.) -/
def normalizeJson : JVal → JVal
  | .atom a => .atom a
  | .jarr xs => .jarr (normalizeJsonList xs)
  | .jobj fields => .jobj (sortByKey (normalizeJsonFields fields))

def normalizeJsonList : List JVal → List JVal
  | [] => []
  | x :: xs => normalizeJson x :: normalizeJsonList xs

def normalizeJsonFields : List (String × JVal) → List (String × JVal)
  | [] => []
  | (k, v) :: rest => (k, normalizeJson v) :: normalizeJsonFields rest
end

/-- `CacheHelper.compare_and_update_json(snippet, json_path,
write_if_different)`: returns the comparison result together with the file
system after any write.  A write stores the normalized snippet (the file
is serialized from `snippet_norm`, so re-parsing it yields exactly that
value). -/
def compareAndUpdateJson (snippet : JVal) (fs : String → Option JVal) (path : String)
    (writeIfDifferent : Bool) : Bool × (String → Option JVal) :=
  let snippetNorm := normalizeJson snippet
  match fs path with
  | none =>
      if writeIfDifferent then
        (false, fun p => if p = path then some snippetNorm else fs p)
      else (false, fs)
  | some existing =>
      if normalizeJson existing = snippetNorm then (true, fs)
      else if writeIfDifferent then
        (false, fun p => if p = path then some snippetNorm else fs p)
      else (false, fs)

/-- C7: `compare_and_update_json(snippet, path)` returns true exactly when
`path` holds parseable JSON whose normalized form equals the normalized
snippet, and then writes nothing; when the file is missing, unparseable or
normalizes differently it writes the normalized snippet to `path` and
returns false. -/
theorem compare_and_update_json_spec (snippet : JVal) (fs : String → Option JVal)
    (path : String) :
    ((compareAndUpdateJson snippet fs path true).1 = true
      ↔ ∃ v, fs path = some v ∧ normalizeJson v = normalizeJson snippet)
    ∧ ((compareAndUpdateJson snippet fs path true).1 = true
        → (compareAndUpdateJson snippet fs path true).2 = fs)
    ∧ ((compareAndUpdateJson snippet fs path true).1 = false
        → (compareAndUpdateJson snippet fs path true).2
            = fun p => if p = path then some (normalizeJson snippet) else fs p) := by
  match hfs : fs path with
  | none =>
      have hr : compareAndUpdateJson snippet fs path true
          = (false, fun p => if p = path then some (normalizeJson snippet) else fs p) := by
        simp [compareAndUpdateJson, hfs]
      rw [hr]
      refine ⟨?_, ?_, ?_⟩
      · simp
      · intro h; simp at h
      · intro _; rfl
  | some existing =>
      by_cases heq : normalizeJson existing = normalizeJson snippet
      · have hr : compareAndUpdateJson snippet fs path true = (true, fs) := by
          simp [compareAndUpdateJson, hfs, heq]
        rw [hr]
        refine ⟨?_, ?_, ?_⟩
        · exact iff_of_true rfl ⟨existing, rfl, heq⟩
        · intro _; rfl
        · intro h; simp at h
      · have hr : compareAndUpdateJson snippet fs path true
            = (false, fun p => if p = path then some (normalizeJson snippet) else fs p) := by
          simp [compareAndUpdateJson, hfs, heq]
        rw [hr]
        refine ⟨?_, ?_, ?_⟩
        · refine iff_of_false (by simp) ?_
          rintro ⟨v, hv, hnorm⟩
          injection hv with hv
          exact heq (hv ▸ hnorm)
        · intro h; simp at h
        · intro _; rfl

/-!
## `rebuild_queue.py`: the rebuild request queue

The queue document's two category fields (`assets`, `lights`) are either
JSON null, a non-list junk value, or a list of entries.
-/

/-- A category field of the queue document. -/
inductive CatField (α : Type) where
  | null
  | notList
  | lst (xs : List α)
deriving DecidableEq, Repr

/-- `NONE` / `FULL` / `PARTIAL` from `QueueMode`. -/
inductive QMode where
  | qnone
  | qfull
  | qtargeted
deriving DecidableEq, Repr

/-- The value in an entry's `name` slot: a string or any other JSON value
(compared with `==` against the asset name, which only a string can
match). -/
inductive NameVal where
  | str (s : String)
  | other
deriving DecidableEq, Repr

/-- The value in an asset entry's `animations` slot. -/
inductive AnimItem where
  | astr (s : String)
  | aother
deriving DecidableEq, Repr

inductive AnimsVal where
  | absent
  | notList
  | alist (xs : List AnimItem)
deriving DecidableEq, Repr

/-- One element of the queue's `assets` list. -/
inductive AssetQEntry where
  | notDict
  | entry (name : Option NameVal) (animations : AnimsVal)
deriving DecidableEq, Repr

/-- One element of the queue's `lights` list. -/
inductive LightQEntry where
  | lstr (s : String)
  | ldict (name : Option NameVal)
  | lother
deriving DecidableEq, Repr

structure QueueData where
  assets : CatField AssetQEntry
  lights : CatField LightQEntry
deriving DecidableEq, Repr

/-- The mode computation shared by `RebuildQueue.asset_mode()` and
`RebuildQueue.light_mode()`: null (or a non-list value) is NONE, an empty
list FULL, a non-empty list PARTIAL. -/
def catMode {α : Type} : CatField α → QMode
  | .null => .qnone
  | .notList => .qnone
  | .lst [] => .qfull
  | .lst (_ :: _) => .qtargeted

/-- `RebuildQueue.asset_mode()`. -/
def assetMode (d : QueueData) : QMode := catMode d.assets

/-- `RebuildQueue.light_mode()`. -/
def lightMode (d : QueueData) : QMode := catMode d.lights

/-- `RebuildQueue._entry_matches(entry, asset_name)`. -/
def entryMatches (e : AssetQEntry) (assetName : String) : Bool :=
  match e with
  | .entry (some (.str s)) _ => s = assetName
  | _ => false

/-- `RebuildQueue.mark_asset_complete(asset_name)`: the list comprehension
replaces `assets` with the non-matching entries; if anything was removed
and the remainder is empty the field becomes null. -/
def markAssetComplete (d : QueueData) (assetName : String) : QueueData :=
  match d.assets with
  | .lst assets =>
      let filtered := assets.filter (fun e => !entryMatches e assetName)
      if filtered.length ≠ assets.length then
        { d with assets := if filtered.length = 0 then .null else .lst filtered }
      else { d with assets := .lst filtered }
  | _ => d

/-- The per-entry body of the `mark_animation_complete` loop: the updated
entry together with whether this entry set `changed`. -/
def pruneAnimEntry (assetName animId : String) (e : AssetQEntry) : AssetQEntry × Bool :=
  match e with
  | .entry nm (.alist (x :: xs)) =>
      if nm = some (.str assetName) then
        let ys := (x :: xs).filter (fun a => a ≠ .astr animId)
        (.entry nm (.alist ys), ys.length ≠ (x :: xs).length ∨ ys.length = 0)
      else (e, false)
  | _ => (e, false)

/-- The predicate `_prune_empty_asset_entries` keeps an entry by: it must be
a dict whose `animations` is not an empty list. -/
def keepAssetEntry : AssetQEntry → Bool
  | .notDict => false
  | .entry _ (.alist []) => false
  | _ => true

/-- `RebuildQueue._prune_empty_asset_entries()`: drop non-dict entries and
entries whose `animations` is an empty list; only when something was
dropped is the field rewritten (to null when nothing remains). -/
def pruneEmptyAssetEntries (assets : List AssetQEntry) : CatField AssetQEntry :=
  let updated := assets.filter keepAssetEntry
  if updated.length ≠ assets.length then
    (if updated = [] then .null else .lst updated)
  else .lst assets

/-- `RebuildQueue.mark_animation_complete(asset_name, animation_id)`. -/
def markAnimationComplete (d : QueueData) (assetName animId : String) : QueueData :=
  match d.assets with
  | .lst assets =>
      let processed := assets.map (pruneAnimEntry assetName animId)
      let newAssets := processed.map Prod.fst
      if processed.any Prod.snd then
        { d with assets := pruneEmptyAssetEntries newAssets }
      else { d with assets := .lst newAssets }
  | _ => d

/-- `RebuildQueue._extract_light_name(entry)`. -/
def extractLightName : LightQEntry → Option String
  | .lstr s => some s
  | .ldict (some (.str s)) => if s = "" then none else some s
  | _ => none

/-- `RebuildQueue.mark_light_complete(asset_name)`. -/
def markLightComplete (d : QueueData) (assetName : String) : QueueData :=
  match d.lights with
  | .lst lights =>
      let filtered := lights.filter (fun e => !decide (extractLightName e = some assetName))
      if filtered.length ≠ lights.length then
        { d with lights := if filtered = [] then .null else .lst filtered }
      else d
  | _ => d

/-- A category field that is null or a non-empty list: not an empty list,
and its mode is not FULL. -/
def catOk {α : Type} (c : CatField α) : Prop :=
  c = .null ∨ ∃ y ys, c = .lst (y :: ys)

theorem catOk_spec {α : Type} (c : CatField α) (h : catOk c) :
    c ≠ .lst [] ∧ catMode c ≠ .qfull := by
  rcases h with h | ⟨y, ys, h⟩ <;> subst h <;> exact ⟨by simp, by simp [catMode]⟩

theorem markAssetComplete_catOk (d : QueueData) (assetName : String)
    (e : AssetQEntry) (es : List AssetQEntry) (h : d.assets = .lst (e :: es)) :
    catOk (markAssetComplete d assetName).assets := by
  simp only [markAssetComplete, h]
  by_cases hlen :
      ((e :: es).filter (fun x => !entryMatches x assetName)).length = (e :: es).length
  · rw [if_neg (not_not_intro hlen)]
    have hne : (e :: es).filter (fun x => !entryMatches x assetName) ≠ [] := by
      intro hnil
      rw [hnil] at hlen
      simp at hlen
    obtain ⟨y, ys, hys⟩ := List.exists_cons_of_ne_nil hne
    exact Or.inr ⟨y, ys, by simp [hys]⟩
  · rw [if_pos hlen]
    by_cases hz : ((e :: es).filter (fun x => !entryMatches x assetName)).length = 0
    · rw [if_pos hz]
      exact Or.inl rfl
    · rw [if_neg hz]
      have hne : (e :: es).filter (fun x => !entryMatches x assetName) ≠ [] := by
        intro hnil
        rw [hnil] at hz
        simp at hz
      obtain ⟨y, ys, hys⟩ := List.exists_cons_of_ne_nil hne
      exact Or.inr ⟨y, ys, by simp [hys]⟩

theorem pruneEmptyAssetEntries_catOk (assets : List AssetQEntry) (hne : assets ≠ []) :
    catOk (pruneEmptyAssetEntries assets) := by
  simp only [pruneEmptyAssetEntries]
  by_cases hlen : (assets.filter keepAssetEntry).length = assets.length
  · rw [if_neg (not_not_intro hlen)]
    obtain ⟨y, ys, hys⟩ := List.exists_cons_of_ne_nil hne
    exact Or.inr ⟨y, ys, by rw [hys]⟩
  · rw [if_pos hlen]
    by_cases hz : assets.filter keepAssetEntry = []
    · rw [if_pos hz]
      exact Or.inl rfl
    · rw [if_neg hz]
      obtain ⟨y, ys, hys⟩ := List.exists_cons_of_ne_nil hz
      exact Or.inr ⟨y, ys, by rw [hys]⟩

theorem markAnimationComplete_catOk (d : QueueData) (assetName animId : String)
    (e : AssetQEntry) (es : List AssetQEntry) (h : d.assets = .lst (e :: es)) :
    catOk (markAnimationComplete d assetName animId).assets := by
  simp only [markAnimationComplete, h]
  by_cases hch : ((e :: es).map (pruneAnimEntry assetName animId)).any Prod.snd
  · rw [if_pos hch]
    apply pruneEmptyAssetEntries_catOk
    simp
  · rw [if_neg hch]
    refine Or.inr ⟨(pruneAnimEntry assetName animId e).1,
      (es.map (pruneAnimEntry assetName animId)).map Prod.fst, ?_⟩
    simp

theorem markLightComplete_catOk (d : QueueData) (assetName : String)
    (e : LightQEntry) (es : List LightQEntry) (h : d.lights = .lst (e :: es)) :
    catOk (markLightComplete d assetName).lights := by
  simp only [markLightComplete, h]
  by_cases hlen :
      ((e :: es).filter
        (fun x => !decide (extractLightName x = some assetName))).length = (e :: es).length
  · rw [if_neg (not_not_intro hlen)]
    exact Or.inr ⟨e, es, h⟩
  · rw [if_pos hlen]
    by_cases hz : (e :: es).filter (fun x => !decide (extractLightName x = some assetName)) = []
    · rw [if_pos hz]
      exact Or.inl rfl
    · rw [if_neg hz]
      obtain ⟨y, ys, hys⟩ := List.exists_cons_of_ne_nil hz
      exact Or.inr ⟨y, ys, by simp [hys]⟩

/-- C10: in PARTIAL mode, completing entries can never leave an empty list
behind — a category emptied by `mark_asset_complete`,
`mark_animation_complete` (via pruning) or `mark_light_complete` becomes
null (mode NONE), so a subsequent read can never observe mode FULL. -/
theorem rebuild_queue_never_empty_list (d : QueueData) (assetName animId : String) :
    (assetMode d = .qtargeted →
        (markAssetComplete d assetName).assets ≠ .lst []
      ∧ assetMode (markAssetComplete d assetName) ≠ .qfull
      ∧ (markAnimationComplete d assetName animId).assets ≠ .lst []
      ∧ assetMode (markAnimationComplete d assetName animId) ≠ .qfull)
    ∧ (lightMode d = .qtargeted →
        (markLightComplete d assetName).lights ≠ .lst []
      ∧ lightMode (markLightComplete d assetName) ≠ .qfull) := by
  constructor
  · intro hmode
    obtain ⟨e, es, hassets⟩ : ∃ e es, d.assets = .lst (e :: es) := by
      rw [assetMode] at hmode
      revert hmode
      match h : d.assets with
      | .null => intro hmode; simp [catMode] at hmode
      | .notList => intro hmode; simp [catMode] at hmode
      | .lst [] => intro hmode; simp [catMode] at hmode
      | .lst (e :: es) => intro _; exact ⟨e, es, rfl⟩
    have h1 := catOk_spec _ (markAssetComplete_catOk d assetName e es hassets)
    have h2 := catOk_spec _ (markAnimationComplete_catOk d assetName animId e es hassets)
    exact ⟨h1.1, h1.2, h2.1, h2.2⟩
  · intro hmode
    obtain ⟨e, es, hlights⟩ : ∃ e es, d.lights = .lst (e :: es) := by
      rw [lightMode] at hmode
      revert hmode
      match h : d.lights with
      | .null => intro hmode; simp [catMode] at hmode
      | .notList => intro hmode; simp [catMode] at hmode
      | .lst [] => intro hmode; simp [catMode] at hmode
      | .lst (e :: es) => intro _; exact ⟨e, es, rfl⟩
    exact catOk_spec _ (markLightComplete_catOk d assetName e es hlights)

/-!
## `shadow_mask.py`: `ShadowMaskSettings.sanitize`

A raw settings dict maps keys to values; the sanitizer probes a value only
through `float(value)` (guarded by try/except), `int(value)` (NOT guarded),
and truthiness (`value or 3`).  A non-dict input is first coerced to a dict
(`raw.__dict__` or `{}`), so quantifying over dicts covers every input.
-/

/-- A raw JSON/attribute value as `sanitize` probes it: its truthiness, the
result of `float(value)` (`none` = conversion raises, caught by `_get`),
and the result of `int(value)` (`none` = conversion raises, uncaught). -/
structure RawVal where
  truthy : Bool
  asFloat : Option ℚ
  asInt : Option ℤ
deriving DecidableEq, Repr

/-- The sanitized settings record. -/
structure ShadowMaskSettingsR where
  expansion_ratio : ℚ
  blur_scale : ℚ
  falloff_start : ℚ
  falloff_exponent : ℚ
  alpha_multiplier : ℚ
  chunk_resolution : ℤ
deriving DecidableEq, Repr

/-- `clamp(value, low, high) = max(low, min(high, value))` from
`shadow_mask.py`. -/
def clampQ (v lo hi : ℚ) : ℚ := max lo (min hi v)

/-- The local `_get(key, default)` of `sanitize`: `float(raw.get(key,
default))` with any exception falling back to the default. -/
def sanitizeGet (raw : String → Option RawVal) (key : String) (dflt : ℚ) : ℚ :=
  match raw key with
  | none => dflt
  | some v => v.asFloat.getD dflt

/-- `int(raw.get("chunk_resolution", 3) or 3)`: the default and falsy
values yield 3; a truthy value goes through an unguarded `int(...)`,
whose failure propagates out of `sanitize`. -/
def chunkResolutionOf (raw : String → Option RawVal) : Option ℤ :=
  match raw "chunk_resolution" with
  | none => some 3
  | some v => if v.truthy then v.asInt else some 3

/-- `ShadowMaskSettings.sanitize(raw)`, with the uncaught
`int("…")`/`TypeError` path surfaced as `.error`. -/
def sanitizeE (raw : String → Option RawVal) : Except Unit ShadowMaskSettingsR :=
  match chunkResolutionOf raw with
  | none => .error ()
  | some chunk =>
      .ok {
        expansion_ratio := clampQ (sanitizeGet raw "expansion_ratio" (4 / 5)) 0 4
        blur_scale := clampQ (sanitizeGet raw "blur_scale" 1) 0 8
        falloff_start := clampQ (sanitizeGet raw "falloff_start" 0) 0 (99 / 100)
        falloff_exponent := max (1 / 100) (sanitizeGet raw "falloff_exponent" (21 / 20))
        alpha_multiplier := clampQ (sanitizeGet raw "alpha_multiplier" 1) 0 4
        chunk_resolution := chunk }

/-- The raw dict `{"chunk_resolution": "abc"}`: the string is truthy and
both `float("abc")` and `int("abc")` raise. -/
def badChunkRaw : String → Option RawVal :=
  fun k => if k = "chunk_resolution" then some ⟨true, none, none⟩ else none

theorem clampQ_mem (v lo hi : ℚ) (h : lo ≤ hi) : lo ≤ clampQ v lo hi ∧ clampQ v lo hi ≤ hi :=
  ⟨le_max_left lo _, max_le h (min_le_left hi v)⟩

/-- C8 (code bug): `sanitize` is meant never to raise and to bound all six
fields, but `chunk_resolution` is read through an unguarded, unclamped
`int(...)`: on `{"chunk_resolution": "abc"}` the call raises.  The five
float fields are indeed clamped whenever `sanitize` returns. -/
theorem sanitize_chunk_resolution_divergence :
    (sanitizeE badChunkRaw).isOk = false
    ∧ (∀ (raw : String → Option RawVal) (s : ShadowMaskSettingsR), sanitizeE raw = .ok s →
        (0 ≤ s.expansion_ratio ∧ s.expansion_ratio ≤ 4)
        ∧ (0 ≤ s.blur_scale ∧ s.blur_scale ≤ 8)
        ∧ (0 ≤ s.falloff_start ∧ s.falloff_start ≤ 99 / 100)
        ∧ 1 / 100 ≤ s.falloff_exponent
        ∧ (0 ≤ s.alpha_multiplier ∧ s.alpha_multiplier ≤ 4)) := by
  constructor
  · rfl
  · intro raw s h
    rw [sanitizeE] at h
    match hc : chunkResolutionOf raw with
    | none => rw [hc] at h; exact Except.noConfusion h
    | some chunk =>
        rw [hc] at h
        injection h with h
        subst h
        refine ⟨clampQ_mem _ 0 4 (by norm_num), clampQ_mem _ 0 8 (by norm_num),
          clampQ_mem _ 0 (99 / 100) (by norm_num), le_max_left _ _,
          clampQ_mem _ 0 4 (by norm_num)⟩

/-!
## Manifest light entries: `cache_validator.py` and `light_tool.py`

A `lighting_info` entry is a dict probed through two slots
(`needs_rebuild`, `has_light_source`); `_normalize_lighting_entries`
(identical in both tools) coerces a bare dict to a one-element list, drops
non-dict elements and defaults `needs_rebuild` to `False`.
-/

/-- A light dict of `lighting_info`: its `needs_rebuild` slot and its
`has_light_source` slot (`none` = key absent). -/
structure LightDictEntry where
  nr : Option PyVal
  hasLight : Option PyVal
deriving DecidableEq, Repr

/-- One element of a `lighting_info` list. -/
inductive LightVal where
  | notDict
  | ldict (e : LightDictEntry)
deriving DecidableEq, Repr

/-- The raw `lighting_info` field of an asset. -/
inductive LightsField where
  | single (e : LightDictEntry)
  | llist (xs : List LightVal)
  | otherLights
deriving DecidableEq, Repr

/-- `bool(entry.get("needs_rebuild"))`. -/
def entryNrTruthy (e : LightDictEntry) : Bool :=
  match e.nr with
  | some v => v.truthy
  | none => false

/-- `bool(entry.get("has_light_source"))` / the truthiness test of
`parse_light_entry`'s `raw.get("has_light_source", False)`. -/
def entryHasLightTruthy (e : LightDictEntry) : Bool :=
  match e.hasLight with
  | some v => v.truthy
  | none => false

/-- `entry.setdefault("needs_rebuild", False)`. -/
def normalizeLightEntry (e : LightDictEntry) : LightDictEntry :=
  { e with nr := some (e.nr.getD (.pybool false)) }

/-- The dict elements of a `lighting_info` field, in order, before
normalization. -/
def dictLightEntries : LightsField → List LightDictEntry
  | .single e => [e]
  | .llist xs => xs.filterMap (fun x => match x with
      | .notDict => none
      | .ldict e => some e)
  | .otherLights => []

/-- `_normalize_lighting_entries(asset_meta)` (identical in
`cache_validator.py` and `light_tool.py`): the normalized list it returns
and stores back into `asset_meta["lighting_info"]`. -/
def normalizeLightingEntries (f : LightsField) : List LightDictEntry :=
  (dictLightEntries f).map normalizeLightEntry

/-- `CacheValidator._set_needs_rebuild(entry)` on a dict entry: flip a
falsy `needs_rebuild` to `True`, report whether anything changed. -/
def setNeedsRebuild (e : LightDictEntry) : LightDictEntry × Bool :=
  if entryNrTruthy e then (e, false)
  else ({ e with nr := some (.pybool true) }, true)

/-- `CacheValidator._mark_light_entries_missing(entries)`. -/
def markLightEntriesMissing (entries : List LightDictEntry) : List LightDictEntry × Bool :=
  (entries.map (fun e => if entryHasLightTruthy e then (setNeedsRebuild e).1 else e),
   entries.any (fun e => entryHasLightTruthy e && (setNeedsRebuild e).2))

/-- The indexed loop at the end of `CacheValidator._validate_light_cache`:
skip already-flagged entries and entries without a light source; flag an
entry whose index-derived cache file `light_<idx>.png` is missing. -/
def validateLightEntriesLoop (fileExists : ℕ → Bool) :
    ℕ → List LightDictEntry → List LightDictEntry × Bool
  | _, [] => ([], false)
  | idx, e :: rest =>
      let r := validateLightEntriesLoop fileExists (idx + 1) rest
      if entryNrTruthy e then (e :: r.1, r.2)
      else if !entryHasLightTruthy e then (e :: r.1, r.2)
      else if fileExists idx then (e :: r.1, r.2)
      else ({ e with nr := some (.pybool true) } :: r.1, true)

/-- The metadata of an asset's light cache directory as
`CacheValidator._load_metadata` sees it: `none` when `metadata.json` is
missing or unparseable, otherwise its `version` slot (`none` = key absent
or a non-integer value, which compares unequal to the current version
either way). -/
structure LightCacheDisk where
  dirExists : Bool
  metaVersion : Option (Option ℤ)
  fileExists : ℕ → Bool

def LIGHT_CACHE_VERSION : ℤ := 3

/-- `CacheValidator._validate_light_cache(asset_name, asset_meta,
cache_root)` for one asset: the normalized entries written back into the
manifest (after any flagging) and the change flag. -/
def validateLightCacheAsset (disk : LightCacheDisk) (f : LightsField) :
    List LightDictEntry × Bool :=
  let entries := normalizeLightingEntries f
  if entries = [] then (entries, false)
  else if !disk.dirExists then markLightEntriesMissing entries
  else
    match disk.metaVersion with
    | none => markLightEntriesMissing entries
    | some ver =>
        if ver ≠ some LIGHT_CACHE_VERSION then markLightEntriesMissing entries
        else validateLightEntriesLoop disk.fileExists 0 entries

/-!
### `light_tool.py`: which files the generator writes

`parse_light_entry` yields a definition exactly for dict entries whose
`has_light_source` is truthy (its numeric fields are read through
total, defaulted readers and only affect pixel content, not file names).
`generate_for_asset` wipes the cache directory, writes `light_<i>.png` for
`i` running over the PARSED definitions in order, records
`metadata.json` with the current version, and clears the flags recorded in
`flagged_indices`.
-/

/-- The sequence of file names `LightTool.generate_for_asset` writes for a
normalized entry list. -/
def generatedLightFiles (entries : List LightDictEntry) : List String :=
  (List.range (entries.filter entryHasLightTruthy).length).map
    (fun i => s!"light_{i}.png")

/-- `LightTool._clear_light_flags`: every flagged index is written
`False`. -/
def clearLightFlags (entries : List LightDictEntry) : List LightDictEntry :=
  entries.map (fun e => if entryNrTruthy e then { e with nr := some (.pybool false) } else e)

/-- The on-disk light cache right after `generate_for_asset` for the same
asset: the directory exists, the metadata carries the current version, and
exactly the written files are present. -/
def diskAfterGenerate (entries : List LightDictEntry) : LightCacheDisk :=
  { dirExists := true
    metaVersion := some (some LIGHT_CACHE_VERSION)
    fileExists := fun idx => decide (s!"light_{idx}.png" ∈ generatedLightFiles entries) }

/-- The file the validator checks entry `idx` against. -/
def validatorExpectedFile (idx : ℕ) : String := s!"light_{idx}.png"

/-- C5 (code bug): the generator indexes `light_<i>.png` over the PARSED
definitions (entries with `has_light_source` only), while the validator
indexes positionally over ALL entries.  With `lighting_info = [no-light
entry, flagged light entry]`, the generator writes only `light_0.png`, the
validator expects `light_1.png` for the light at position 1, and running
the validator on the freshly generated cache immediately re-flags that
entry — a permanent rebuild loop. -/
theorem light_cache_filename_mismatch :
    generatedLightFiles
        [⟨some (.pybool false), some (.pybool false)⟩,
         ⟨some (.pybool true), some (.pybool true)⟩]
      = ["light_0.png"]
    ∧ validatorExpectedFile 1 = "light_1.png"
    ∧ validatorExpectedFile 1 ∉
        generatedLightFiles
          [⟨some (.pybool false), some (.pybool false)⟩,
           ⟨some (.pybool true), some (.pybool true)⟩]
    ∧ clearLightFlags
        [⟨some (.pybool false), some (.pybool false)⟩,
         ⟨some (.pybool true), some (.pybool true)⟩]
      = [⟨some (.pybool false), some (.pybool false)⟩,
         ⟨some (.pybool false), some (.pybool true)⟩]
    ∧ validateLightCacheAsset
        (diskAfterGenerate
          [⟨some (.pybool false), some (.pybool false)⟩,
           ⟨some (.pybool true), some (.pybool true)⟩])
        (.llist [.ldict ⟨some (.pybool false), some (.pybool false)⟩,
                 .ldict ⟨some (.pybool false), some (.pybool true)⟩])
      = ([⟨some (.pybool false), some (.pybool false)⟩,
          ⟨some (.pybool true), some (.pybool true)⟩], true) := by
  decide

/-!
## `cache_validator.py`: the full `validate_cache_integrity` pass

The manifest is embedded structurally (assoc lists preserve dict
iteration order); the file system is an abstract oracle for the existence
tests and metadata loads the validator performs.
-/

/-- The `frames` field of an animation dict. -/
inductive FramesField where
  | notList
  | flist (xs : List Frame)
deriving DecidableEq, Repr

/-- An animation dict as the validator reads it: `number_of_frames` (`some`
when the manifest holds an `int`), the value `_read_speed_multiplier`
returns (`float(raw)` with fallback 1.0), and the `frames` field. -/
structure AnimMeta where
  numberOfFrames : Option ℤ
  speedRaw : PyFloat
  frames : FramesField
deriving DecidableEq, Repr

inductive AnimVal where
  | notDictAnim
  | anim (m : AnimMeta)
deriving DecidableEq, Repr

/-- The animations block an asset ends up iterating (after the one-level
`{"animations": {...}}` unwrap the code applies). -/
inductive AnimationsField where
  | notDictAnims
  | anims (xs : List (String × AnimVal))
deriving DecidableEq, Repr

structure AssetMeta where
  assetDirectory : String
  hasShading : Bool
  animations : AnimationsField
  lightingInfo : LightsField
deriving DecidableEq, Repr

inductive AssetVal where
  | notDictAsset
  | asset (m : AssetMeta)
deriving DecidableEq, Repr

/-- The manifest: its `assets` block (`none` when not a dict). -/
structure Manifest where
  assets : Option (List (String × AssetVal))
deriving DecidableEq, Repr

/-- The file system as the validator probes it: directory and file
existence by path, parsed light metadata by path, and the fallback
numbered-frame count (keyed by the asset directory string, the asset name
and the animation name that determine the probed folder). -/
structure Disk where
  isDir : List String → Bool
  isFile : List String → Bool
  lightMetadata : List String → Option (Option ℤ)
  srcFrameCount : String → String → String → ℕ

def ANIMATION_SCALE_PCTS : List ℕ := [100, 75, 50, 25, 10]

/-- `CacheValidator._animation_output_exists(anim_cache_root, output_idx,
has_mask)`. -/
def animationOutputExists (disk : Disk) (animCacheRoot : List String)
    (outputIdx : ℕ) (hasMask : Bool) : Bool :=
  ANIMATION_SCALE_PCTS.all fun pct =>
    let scaleDir := animCacheRoot ++ [s!"scale_{pct}"]
    disk.isDir scaleDir
    && (["normal", "foreground", "background"].all fun variant =>
          disk.isFile (scaleDir ++ [variant, s!"{outputIdx}.png"]))
    && (!hasMask || disk.isFile (scaleDir ++ ["mask", s!"{outputIdx}.png"]))

/-- `CacheValidator._frame_count_from_anim`. -/
def frameCountFromAnim (disk : Disk) (assetName animName assetDir : String)
    (m : AnimMeta) : ℕ :=
  match m.numberOfFrames with
  | some z => z.toNat
  | none => disk.srcFrameCount assetDir assetName animName

def framesOf : FramesField → List Frame
  | .notList => []
  | .flist xs => xs

/-- The `{"needs_rebuild": False}` entry `_normalize_frames` grows with. -/
def newFrame : Frame := .fdict (some (.pybool false))

/-- `CacheValidator._normalize_frames`: grow with fresh false entries or
truncate to the frame count. -/
def normalizeFrames (fs : List Frame) (frameCount : ℕ) : List Frame :=
  if fs.length < frameCount then fs ++ List.replicate (frameCount - fs.length) newFrame
  else if frameCount < fs.length then fs.take frameCount
  else fs

/-- `CacheValidator._set_needs_rebuild` on a frame entry. -/
def setFrameNeedsRebuild (f : Frame) : Frame × Bool :=
  match f with
  | .notDict => (f, false)
  | .fdict v =>
      if (v.getD (.pybool false)).truthy then (f, false)
      else (.fdict (some (.pybool true)), true)

def frameNrTruthy : Frame → Bool
  | .fdict (some v) => v.truthy
  | _ => false

/-- `CacheValidator._mark_all_frames_missing`. -/
def markAllFramesMissing (fs : List Frame) : List Frame × Bool :=
  (fs.map (fun f => (setFrameNeedsRebuild f).1), fs.any (fun f => (setFrameNeedsRebuild f).2))

/-- The output-index loop of `_validate_animation_cache`, walking the
enumerated speed sequence and flagging the source frame behind any missing
output. -/
def validateAnimLoop (disk : Disk) (animCacheRoot : List String) (hasMask : Bool) :
    List (ℕ × ℤ) → List Frame → Bool → List Frame × Bool
  | [], fs, changed => (fs, changed)
  | (outputIdx, sourceIdx) :: rest, fs, changed =>
      if sourceIdx < 0 ∨ (fs.length : ℤ) ≤ sourceIdx then
        validateAnimLoop disk animCacheRoot hasMask rest fs changed
      else
        match fs[sourceIdx.toNat]? with
        | some (.fdict v) =>
            if (v.getD (.pybool false)).truthy then
              validateAnimLoop disk animCacheRoot hasMask rest fs changed
            else if animationOutputExists disk animCacheRoot outputIdx hasMask then
              validateAnimLoop disk animCacheRoot hasMask rest fs changed
            else
              validateAnimLoop disk animCacheRoot hasMask rest
                (fs.set sourceIdx.toNat (.fdict (some (.pybool true)))) true
        | _ => validateAnimLoop disk animCacheRoot hasMask rest fs changed

/-- `CacheValidator._validate_animation_cache` for one animation: the
updated animation dict (its `frames` normalized and possibly flagged) and
the change flag. -/
def validateAnimationCache (disk : Disk) (root : List String) (assetName assetDir : String)
    (hasMask : Bool) (animName : String) (m : AnimMeta) : AnimMeta × Bool :=
  let frameCount := frameCountFromAnim disk assetName animName assetDir m
  let fs := normalizeFrames (framesOf m.frames) frameCount
  if frameCount = 0 then ({ m with frames := .flist fs }, false)
  else
    let animCacheRoot := root ++ [assetName, "animations", animName]
    if !disk.isDir animCacheRoot then
      let r := markAllFramesMissing fs
      ({ m with frames := .flist r.1 }, r.2)
    else
      let seq := buildSpeedFrameSequence (frameCount : ℤ) m.speedRaw
      if seq = [] then ({ m with frames := .flist fs }, false)
      else
        let r := validateAnimLoop disk animCacheRoot hasMask seq.enum fs false
        ({ m with frames := .flist r.1 }, r.2)

/-- The `LightCacheDisk` view `_validate_light_cache` derives from the
global file system for one asset. -/
def lightDiskFor (disk : Disk) (root : List String) (assetName : String) : LightCacheDisk :=
  let cacheDir := root ++ [assetName, "lights"]
  { dirExists := disk.isDir cacheDir
    metaVersion := disk.lightMetadata (cacheDir ++ ["metadata.json"])
    fileExists := fun idx => disk.isFile (cacheDir ++ [s!"light_{idx}.png"]) }

/-- The `_each_animation` pass of `validate_cache_integrity` over one
asset's animations block. -/
def validateAssetAnimationsPass (disk : Disk) (root : List String) (assetName : String)
    (m : AssetMeta) : AssetMeta × Bool :=
  match m.animations with
  | .notDictAnims => (m, false)
  | .anims xs =>
      let results := xs.map (fun p =>
        match p.2 with
        | .notDictAnim => ((p.1, p.2), false)
        | .anim am =>
            let r := validateAnimationCache disk root assetName m.assetDirectory
              m.hasShading p.1 am
            ((p.1, AnimVal.anim r.1), r.2))
      ({ m with animations := .anims (results.map Prod.fst) }, results.any Prod.snd)

/-- The `_each_asset` pass of `validate_cache_integrity` over one asset's
lights. -/
def validateAssetLightsPass (disk : Disk) (root : List String) (assetName : String)
    (m : AssetMeta) : AssetMeta × Bool :=
  let r := validateLightCacheAsset (lightDiskFor disk root assetName) m.lightingInfo
  ({ m with lightingInfo := .llist (r.1.map .ldict) }, r.2)

/-- Apply a per-asset-meta step to every dict asset of the block. -/
def mapAssets (φ : String → AssetMeta → AssetMeta × Bool)
    (assets : List (String × AssetVal)) : List (String × AssetVal) × Bool :=
  let results := assets.map (fun p =>
    match p.2 with
    | .notDictAsset => ((p.1, p.2), false)
    | .asset m =>
        let r := φ p.1 m
        ((p.1, AssetVal.asset r.1), r.2))
  (results.map Prod.fst, results.any Prod.snd)

/-- `CacheValidator.validate_cache_integrity(cache_root)`: the animation
pass over every asset, then the light pass, with the combined change
flag. -/
def validateCacheIntegrity (disk : Disk) (root : List String) (man : Manifest) :
    Manifest × Bool :=
  match man.assets with
  | none => (man, false)
  | some assets =>
      let a1 := mapAssets (validateAssetAnimationsPass disk root) assets
      let a2 := mapAssets (validateAssetLightsPass disk root) a1.1
      (⟨some a2.1⟩, a1.2 || a2.2)

/-!
### Monotonicity of the validator

Per-entry step relations: a frame entry surviving a validator run is
either untouched or was flipped from a falsy `needs_rebuild` to `True`; a
light entry is additionally subject to `setdefault("needs_rebuild",
False)`, which materializes an absent key as `False` without changing its
truthiness.
-/

/-- How one frame entry may evolve under the validator. -/
def frameStep (f g : Frame) : Prop :=
  g = f ∨ (frameNrTruthy f = false ∧ (∃ v, f = .fdict v) ∧ g = .fdict (some (.pybool true)))

theorem frameStep_refl (f : Frame) : frameStep f f := Or.inl rfl

theorem frameStep_trans {f g h : Frame} (h1 : frameStep f g) (h2 : frameStep g h) :
    frameStep f h := by
  rcases h1 with rfl | ⟨hfal, ⟨v, rfl⟩, rfl⟩
  · exact h2
  · rcases h2 with rfl | ⟨hfal2, -, rfl⟩
    · exact Or.inr ⟨hfal, ⟨v, rfl⟩, rfl⟩
    · simp [frameNrTruthy, PyVal.truthy] at hfal2

/-- How one light entry may evolve under the validator: untouched,
normalized (`setdefault` materializing an absent `needs_rebuild` as
`False`), or flipped from falsy to `True`. -/
def lightStep (e g : LightDictEntry) : Prop :=
  g = e ∨ g = normalizeLightEntry e
    ∨ (entryNrTruthy e = false ∧ g = { e with nr := some (.pybool true) })

theorem entryNrTruthy_normalize (e : LightDictEntry) :
    entryNrTruthy (normalizeLightEntry e) = entryNrTruthy e := by
  rcases e with ⟨nr, hl⟩
  cases nr <;> rfl

theorem normalizeFrames_getElem (fs : List Frame) (n k : ℕ) (f g : Frame)
    (hf : fs[k]? = some f) (hg : (normalizeFrames fs n)[k]? = some g) : g = f := by
  have hk : k < fs.length := (List.getElem?_eq_some.mp hf).1
  rw [normalizeFrames] at hg
  split at hg
  · rw [List.getElem?_append, if_pos hk, hf] at hg
    injection hg with hg
    exact hg.symm
  · split at hg
    · next hlt =>
        rw [List.getElem?_take] at hg
        split at hg
        · rw [hf] at hg
          injection hg with hg
          exact hg.symm
        · exact Option.noConfusion hg
    · rw [hf] at hg
      injection hg with hg
      exact hg.symm

theorem setFrameNeedsRebuild_step (f : Frame) : frameStep f (setFrameNeedsRebuild f).1 := by
  match f with
  | .notDict => exact frameStep_refl _
  | .fdict v =>
      rw [setFrameNeedsRebuild]
      by_cases h : (v.getD (.pybool false)).truthy
      · rw [if_pos h]
        exact frameStep_refl _
      · rw [if_neg h]
        refine Or.inr ⟨?_, ⟨v, rfl⟩, rfl⟩
        cases v with
        | none => rfl
        | some w => simpa [frameNrTruthy, Option.getD] using h

theorem markAllFramesMissing_step (fs : List Frame) (k : ℕ) (f g : Frame)
    (hf : fs[k]? = some f) (hg : (markAllFramesMissing fs).1[k]? = some g) : frameStep f g := by
  rw [markAllFramesMissing] at hg
  simp only [List.getElem?_map, hf, Option.map_some] at hg
  injection hg with hg
  rw [← hg]
  exact setFrameNeedsRebuild_step f

theorem validateAnimLoop_length (disk : Disk) (acr : List String) (hasMask : Bool) :
    ∀ (seq : List (ℕ × ℤ)) (fs : List Frame) (changed : Bool),
      (validateAnimLoop disk acr hasMask seq fs changed).1.length = fs.length := by
  intro seq
  induction seq with
  | nil => intro fs ch; rfl
  | cons p rest ih =>
      obtain ⟨oi, si⟩ := p
      intro fs ch
      rw [validateAnimLoop]
      split
      · exact ih fs ch
      · split
        · split
          · exact ih fs ch
          · split
            · exact ih fs ch
            · rw [ih]
              exact List.length_set ..
        · exact ih fs ch

theorem validateAnimLoop_step (disk : Disk) (acr : List String) (hasMask : Bool) :
    ∀ (seq : List (ℕ × ℤ)) (fs : List Frame) (changed : Bool) (k : ℕ) (f g : Frame),
      fs[k]? = some f →
      (validateAnimLoop disk acr hasMask seq fs changed).1[k]? = some g →
      frameStep f g := by
  intro seq
  induction seq with
  | nil =>
      intro fs ch k f g hf hg
      rw [validateAnimLoop, hf] at hg
      injection hg with hg
      exact hg ▸ frameStep_refl f
  | cons p rest ih =>
      obtain ⟨oi, si⟩ := p
      intro fs ch k f g hf hg
      rw [validateAnimLoop] at hg
      split at hg
      · exact ih fs ch k f g hf hg
      · next hrange =>
          have hsi : 0 ≤ si ∧ si < (fs.length : ℤ) := by
            constructor <;> omega
          split at hg
          · next v hv =>
              split at hg
              · exact ih fs ch k f g hf hg
              · next hfalsy =>
                  split at hg
                  · exact ih fs ch k f g hf hg
                  · -- the flagged-write branch
                    by_cases hk : k = si.toNat
                    · subst hk
                      have hfv : f = .fdict v := by
                        rw [hf] at hv
                        exact Option.some.inj hv
                      have hlt : si.toNat < fs.length := by omega
                      have hmid :
                          (fs.set si.toNat (.fdict (some (.pybool true))))[si.toNat]?
                            = some (.fdict (some (.pybool true))) :=
                        List.getElem?_set_eq_of_lt _ hlt
                      have hstep1 : frameStep f (.fdict (some (.pybool true))) := by
                        refine Or.inr ⟨?_, ⟨v, hfv⟩, rfl⟩
                        rw [hfv]
                        cases v with
                        | none => rfl
                        | some w => simpa [frameNrTruthy, Option.getD] using hfalsy
                      exact frameStep_trans hstep1 (ih _ _ _ _ _ hmid hg)
                    · have hmid :
                          (fs.set si.toNat (.fdict (some (.pybool true))))[k]? = some f := by
                        rw [List.getElem?_set_ne (fun hh => hk hh.symm)]
                        exact hf
                      exact ih _ _ _ _ _ hmid hg
          · exact ih fs ch k f g hf hg

/-- One animation's validation only moves frame entries along
`frameStep`. -/
theorem validateAnimationCache_step (disk : Disk) (root : List String)
    (assetName assetDir : String) (hasMask : Bool) (animName : String) (m : AnimMeta)
    (k : ℕ) (f g : Frame)
    (hf : (framesOf m.frames)[k]? = some f)
    (hg : (framesOf
        (validateAnimationCache disk root assetName assetDir hasMask animName m).1.frames)[k]?
      = some g) :
    frameStep f g := by
  rw [validateAnimationCache] at hg
  split at hg
  · exact (normalizeFrames_getElem _ _ _ _ _ hf hg) ▸ frameStep_refl f
  · simp only [] at hg
    split at hg
    · -- cache directory missing: every frame marked
      simp only [framesOf] at hg
      have hk : k < (normalizeFrames (framesOf m.frames)
          (frameCountFromAnim disk assetName animName assetDir m)).length := by
        have := (List.getElem?_eq_some.mp hg).1
        simpa [markAllFramesMissing] using this
      obtain ⟨mid, hmid⟩ : ∃ mid, (normalizeFrames (framesOf m.frames)
          (frameCountFromAnim disk assetName animName assetDir m))[k]? = some mid :=
        ⟨_, List.getElem?_eq_getElem hk⟩
      have hmidf : mid = f := normalizeFrames_getElem _ _ _ _ _ hf hmid
      subst hmidf
      exact markAllFramesMissing_step _ _ _ _ hmid hg
    · split at hg
      · exact (normalizeFrames_getElem _ _ _ _ _ hf hg) ▸ frameStep_refl f
      · -- the per-output-index loop
        simp only [framesOf] at hg
        have hk : k < (normalizeFrames (framesOf m.frames)
            (frameCountFromAnim disk assetName animName assetDir m)).length := by
          have := (List.getElem?_eq_some.mp hg).1
          rwa [validateAnimLoop_length] at this
        obtain ⟨mid, hmid⟩ : ∃ mid, (normalizeFrames (framesOf m.frames)
            (frameCountFromAnim disk assetName animName assetDir m))[k]? = some mid :=
          ⟨_, List.getElem?_eq_getElem hk⟩
        have hmidf : mid = f := normalizeFrames_getElem _ _ _ _ _ hf hmid
        subst hmidf
        exact validateAnimLoop_step disk _ hasMask _ _ _ _ _ _ hmid hg

theorem lightStep_of_normalized (e : LightDictEntry) (g : LightDictEntry)
    (h : g = normalizeLightEntry e
      ∨ (entryNrTruthy (normalizeLightEntry e) = false
          ∧ g = { normalizeLightEntry e with nr := some (.pybool true) })) :
    lightStep e g := by
  rcases h with rfl | ⟨hfal, rfl⟩
  · exact Or.inr (Or.inl rfl)
  · right; right
    rw [entryNrTruthy_normalize] at hfal
    exact ⟨hfal, rfl⟩

/-- `markLightEntriesMissing` applied to the normalized entries moves each
original dict entry along `lightStep`. -/
theorem markLightEntriesMissing_forall₂ (l : List LightDictEntry) :
    List.Forall₂ lightStep l (markLightEntriesMissing (l.map normalizeLightEntry)).1 := by
  rw [markLightEntriesMissing]
  simp only [List.map_map]
  induction l with
  | nil => exact List.Forall₂.nil
  | cons e rest ih =>
      rw [List.map_cons]
      refine List.Forall₂.cons ?_ ih
      apply lightStep_of_normalized
      simp only [Function.comp_apply]
      by_cases hl : entryHasLightTruthy (normalizeLightEntry e)
      · rw [if_pos hl, setNeedsRebuild]
        by_cases hn : entryNrTruthy (normalizeLightEntry e)
        · rw [if_pos hn]
          exact Or.inl rfl
        · rw [if_neg hn]
          exact Or.inr ⟨by simpa using hn, rfl⟩
      · rw [if_neg hl]
        exact Or.inl rfl

/-- The indexed file loop moves each normalized entry along the same
relation. -/
theorem validateLightEntriesLoop_forall₂ (fx : ℕ → Bool) :
    ∀ (l : List LightDictEntry) (idx : ℕ),
      List.Forall₂ (fun e' g => g = e'
          ∨ (entryNrTruthy e' = false ∧ g = { e' with nr := some (.pybool true) }))
        l (validateLightEntriesLoop fx idx l).1 := by
  intro l
  induction l with
  | nil => intro idx; exact List.Forall₂.nil
  | cons e rest ih =>
      intro idx
      rw [validateLightEntriesLoop]
      by_cases hn : entryNrTruthy e
      · rw [if_pos hn]
        exact List.Forall₂.cons (Or.inl rfl) (ih (idx + 1))
      · rw [if_neg hn]
        by_cases hl : !entryHasLightTruthy e
        · rw [if_pos hl]
          exact List.Forall₂.cons (Or.inl rfl) (ih (idx + 1))
        · rw [if_neg hl]
          by_cases hfile : fx idx
          · rw [if_pos hfile]
            exact List.Forall₂.cons (Or.inl rfl) (ih (idx + 1))
          · rw [if_neg hfile]
            exact List.Forall₂.cons (Or.inr ⟨by simpa using hn, rfl⟩) (ih (idx + 1))

theorem forall₂_lightStep_comp (l : List LightDictEntry) (result : List LightDictEntry)
    (h : List.Forall₂ (fun e' g => g = e'
        ∨ (entryNrTruthy e' = false ∧ g = { e' with nr := some (.pybool true) }))
      (l.map normalizeLightEntry) result) :
    List.Forall₂ lightStep l result := by
  induction l generalizing result with
  | nil =>
      rw [List.map_nil] at h
      cases h
      exact List.Forall₂.nil
  | cons e rest ih =>
      rw [List.map_cons] at h
      cases h with
      | cons hrel hrest =>
          exact List.Forall₂.cons (lightStep_of_normalized _ _ hrel) (ih _ hrest)

/-- One asset's light validation moves each original dict entry of
`lighting_info` along `lightStep`. -/
theorem validateLightCacheAsset_forall₂ (dk : LightCacheDisk) (f : LightsField) :
    List.Forall₂ lightStep (dictLightEntries f) (validateLightCacheAsset dk f).1 := by
  rw [validateLightCacheAsset]
  have hnorm : normalizeLightingEntries f = (dictLightEntries f).map normalizeLightEntry := rfl
  by_cases hempty : normalizeLightingEntries f = []
  · rw [if_pos hempty, hempty]
    have : dictLightEntries f = [] := by
      rw [hnorm] at hempty
      exact List.map_eq_nil_iff.mp hempty
    rw [this]
    exact List.Forall₂.nil
  · rw [if_neg hempty]
    by_cases hdir : !dk.dirExists
    · rw [if_pos hdir, hnorm]
      exact markLightEntriesMissing_forall₂ _
    · rw [if_neg hdir]
      cases hmv : dk.metaVersion with
      | none =>
          simp only [hmv]
          rw [hnorm]
          exact markLightEntriesMissing_forall₂ _
      | some ver =>
          simp only [hmv]
          by_cases hver : ver ≠ some LIGHT_CACHE_VERSION
          · rw [if_pos hver, hnorm]
            exact markLightEntriesMissing_forall₂ _
          · rw [if_neg hver, hnorm]
            exact forall₂_lightStep_comp _ _ (validateLightEntriesLoop_forall₂ _ _ _)

/-!
### Composing the per-unit lemmas through the manifest traversal
-/

def assetMetaAt (assets : List (String × AssetVal)) (i : ℕ) : Option AssetMeta :=
  match assets[i]? with
  | some (_, .asset m) => some m
  | _ => none

def frameAtMeta (m : AssetMeta) (j k : ℕ) : Option Frame :=
  match m.animations with
  | .anims xs =>
      match xs[j]? with
      | some (_, .anim am) => (framesOf am.frames)[k]?
      | _ => none
  | .notDictAnims => none

/-- The frame entry at asset position `i`, animation position `j`, frame
position `k` of a manifest. -/
def frameAt (man : Manifest) (i j k : ℕ) : Option Frame :=
  match man.assets with
  | some assets =>
      match assetMetaAt assets i with
      | some m => frameAtMeta m j k
      | none => none
  | none => none

/-- The `lighting_info` field of the asset at position `i`. -/
def lightsFieldAt (man : Manifest) (i : ℕ) : Option LightsField :=
  match man.assets with
  | some assets => (assetMetaAt assets i).map AssetMeta.lightingInfo
  | none => none

theorem mapAssets_fst (φ : String → AssetMeta → AssetMeta × Bool)
    (xs : List (String × AssetVal)) :
    (mapAssets φ xs).1 = xs.map (fun p =>
      match p.2 with
      | .notDictAsset => p
      | .asset m => (p.1, AssetVal.asset (φ p.1 m).1)) := by
  rw [mapAssets]
  simp only [List.map_map]
  refine List.map_congr_left (fun p _ => ?_)
  rcases p with ⟨name, av⟩
  cases av <;> rfl

theorem assetMetaAt_mapAssets_none (φ : String → AssetMeta → AssetMeta × Bool)
    (xs : List (String × AssetVal)) (i : ℕ) (h : assetMetaAt xs i = none) :
    assetMetaAt (mapAssets φ xs).1 i = none := by
  rw [mapAssets_fst, assetMetaAt, List.getElem?_map]
  rw [assetMetaAt] at h
  revert h
  match hx : xs[i]? with
  | none => intro h; rfl
  | some (name, .notDictAsset) => intro h; rfl
  | some (name, .asset m) => intro h; exact Option.noConfusion h

theorem assetMetaAt_mapAssets_some (φ : String → AssetMeta → AssetMeta × Bool)
    (xs : List (String × AssetVal)) (i : ℕ) (m : AssetMeta)
    (h : assetMetaAt xs i = some m) :
    ∃ name, assetMetaAt (mapAssets φ xs).1 i = some (φ name m).1 := by
  rw [mapAssets_fst, assetMetaAt, List.getElem?_map]
  rw [assetMetaAt] at h
  revert h
  match hx : xs[i]? with
  | none => intro h; exact Option.noConfusion h
  | some (name, .notDictAsset) => intro h; exact Option.noConfusion h
  | some (name, .asset m') =>
      intro h
      injection h with h
      subst h
      exact ⟨name, rfl⟩

theorem animationsPass_lightingInfo (disk : Disk) (root : List String) (name : String)
    (m : AssetMeta) :
    (validateAssetAnimationsPass disk root name m).1.lightingInfo = m.lightingInfo := by
  rw [validateAssetAnimationsPass]
  cases hm : m.animations <;> rfl

theorem lightsPass_animations (disk : Disk) (root : List String) (name : String)
    (m : AssetMeta) :
    (validateAssetLightsPass disk root name m).1.animations = m.animations := rfl

theorem lightsPass_lightingInfo (disk : Disk) (root : List String) (name : String)
    (m : AssetMeta) :
    (validateAssetLightsPass disk root name m).1.lightingInfo
      = .llist ((validateLightCacheAsset (lightDiskFor disk root name) m.lightingInfo).1.map
          .ldict) := rfl

theorem frameAtMeta_congr (m m' : AssetMeta) (h : m'.animations = m.animations) (j k : ℕ) :
    frameAtMeta m' j k = frameAtMeta m j k := by
  rw [frameAtMeta, frameAtMeta, h]

/-- The animation pass moves every surviving frame entry along
`frameStep`. -/
theorem animationsPass_frame_step (disk : Disk) (root : List String) (name : String)
    (m : AssetMeta) (j k : ℕ) (f g : Frame)
    (hf : frameAtMeta m j k = some f)
    (hg : frameAtMeta (validateAssetAnimationsPass disk root name m).1 j k = some g) :
    frameStep f g := by
  rw [frameAtMeta] at hf
  rw [validateAssetAnimationsPass] at hg
  revert hf hg
  cases hA : m.animations with
  | notDictAnims => intro hf; exact absurd hf (by simp)
  | anims xs =>
      intro hf hg
      have hf' : (match xs[j]? with
          | some (_, AnimVal.anim am) => (framesOf am.frames)[k]?
          | _ => none) = some f := hf
      rw [frameAtMeta] at hg
      simp only [List.map_map] at hg
      rw [List.getElem?_map] at hg
      clear hf
      revert hf'
      match hx : xs[j]? with
      | none => intro hf'; exact Option.noConfusion hf'
      | some (nm, .notDictAnim) => intro hf'; exact Option.noConfusion hf'
      | some (nm, .anim am) =>
          intro hf'
          rw [hx] at hg
          exact validateAnimationCache_step disk root name m.assetDirectory m.hasShading
            nm am k f g hf' hg

theorem frameAt_mk_some (assets : List (String × AssetVal)) (i j k : ℕ) :
    frameAt ⟨some assets⟩ i j k
      = (match assetMetaAt assets i with
         | some m => frameAtMeta m j k
         | none => none) := rfl

theorem lightsFieldAt_mk_some (assets : List (String × AssetVal)) (i : ℕ) :
    lightsFieldAt ⟨some assets⟩ i = (assetMetaAt assets i).map AssetMeta.lightingInfo := rfl

theorem frameStep_mono {f g : Frame} (h : frameStep f g) :
    (frameNrTruthy f = true → g = f)
    ∧ (g ≠ f → frameNrTruthy f = false ∧ g = .fdict (some (.pybool true))) := by
  rcases h with rfl | ⟨hfal, -, rfl⟩
  · exact ⟨fun _ => rfl, fun hne => absurd rfl hne⟩
  · exact ⟨fun htru => absurd htru (by simp [hfal]), fun _ => ⟨hfal, rfl⟩⟩

theorem lightStep_mono {e g : LightDictEntry} (h : lightStep e g) :
    (entryNrTruthy e = true → entryNrTruthy g = true)
    ∧ (entryNrTruthy g ≠ entryNrTruthy e →
        entryNrTruthy e = false ∧ entryNrTruthy g = true) := by
  rcases h with rfl | rfl | ⟨hfal, rfl⟩
  · exact ⟨fun h => h, fun hne => absurd rfl hne⟩
  · rw [entryNrTruthy_normalize]
    exact ⟨fun h => h, fun hne => absurd rfl hne⟩
  · have hg : entryNrTruthy { e with nr := some (.pybool true) } = true := rfl
    exact ⟨fun htru => hg, fun _ => ⟨hfal, hg⟩⟩

theorem dictLightEntries_ldict (es : List LightDictEntry) :
    dictLightEntries (.llist (es.map .ldict)) = es := by
  rw [dictLightEntries, List.filterMap_map]
  have h : ((fun x => match x with
      | LightVal.notDict => none
      | LightVal.ldict e => some e) ∘ LightVal.ldict) = some := rfl
  rw [h, List.filterMap_some]

/-- C3: a full `validate_cache_integrity` run moves every surviving frame
entry along `frameStep` and every light entry along `lightStep`; both
relations only permit keeping a `needs_rebuild` value or flipping a falsy
one to `True` — never true→false. -/
theorem validator_monotone (disk : Disk) (root : List String) (man : Manifest) :
    (∀ i j k f g,
        frameAt man i j k = some f →
        frameAt (validateCacheIntegrity disk root man).1 i j k = some g →
        frameStep f g)
    ∧ (∀ f g : Frame, frameStep f g →
        (frameNrTruthy f = true → g = f)
        ∧ (g ≠ f → frameNrTruthy f = false ∧ g = .fdict (some (.pybool true))))
    ∧ (∀ i lf,
        lightsFieldAt man i = some lf →
        ∃ lf', lightsFieldAt (validateCacheIntegrity disk root man).1 i = some lf'
          ∧ List.Forall₂ lightStep (dictLightEntries lf) (dictLightEntries lf'))
    ∧ (∀ e g : LightDictEntry, lightStep e g →
        (entryNrTruthy e = true → entryNrTruthy g = true)
        ∧ (entryNrTruthy g ≠ entryNrTruthy e →
            entryNrTruthy e = false ∧ entryNrTruthy g = true)) := by
  refine ⟨?_, fun f g h => frameStep_mono h, ?_, fun e g h => lightStep_mono h⟩
  · intro i j k f g hf hg
    rw [validateCacheIntegrity] at hg
    cases hassets : man.assets with
    | none =>
        rw [hassets] at hg
        have hg' : frameAt man i j k = some g := hg
        rw [hf] at hg'
        injection hg' with hg'
        exact hg' ▸ frameStep_refl f
    | some assets =>
        rw [hassets] at hg
        have hg1 :
            (match assetMetaAt
                (mapAssets (validateAssetLightsPass disk root)
                  (mapAssets (validateAssetAnimationsPass disk root) assets).1).1 i with
             | some m => frameAtMeta m j k
             | none => none) = some g := hg
        rw [frameAt] at hf
        simp only [hassets] at hf
        revert hf
        match hmeta : assetMetaAt assets i with
        | none => intro hf; exact Option.noConfusion hf
        | some m =>
            intro hf
            have hf' : frameAtMeta m j k = some f := hf
            obtain ⟨name1, h1⟩ :=
              assetMetaAt_mapAssets_some (validateAssetAnimationsPass disk root) assets i m hmeta
            obtain ⟨name2, h2⟩ :=
              assetMetaAt_mapAssets_some (validateAssetLightsPass disk root) _ i _ h1
            rw [h2] at hg1
            have hg2 : frameAtMeta (validateAssetLightsPass disk root name2
                (validateAssetAnimationsPass disk root name1 m).1).1 j k = some g := hg1
            rw [frameAtMeta_congr (validateAssetAnimationsPass disk root name1 m).1 _
              (lightsPass_animations disk root name2 _)] at hg2
            exact animationsPass_frame_step disk root name1 m j k f g hf' hg2
  · intro i lf hlf
    rw [validateCacheIntegrity]
    cases hassets : man.assets with
    | none =>
        refine ⟨lf, hlf, ?_⟩
        exact List.forall₂_same.mpr (fun e _ => Or.inl rfl)
    | some assets =>
        rw [lightsFieldAt] at hlf
        simp only [hassets] at hlf
        rw [Option.map_eq_some'] at hlf
        obtain ⟨m, hmeta, hml⟩ := hlf
        obtain ⟨name1, h1⟩ :=
          assetMetaAt_mapAssets_some (validateAssetAnimationsPass disk root) assets i m hmeta
        obtain ⟨name2, h2⟩ :=
          assetMetaAt_mapAssets_some (validateAssetLightsPass disk root) _ i _ h1
        refine ⟨(validateAssetLightsPass disk root name2
            (validateAssetAnimationsPass disk root name1 m).1).1.lightingInfo, ?_, ?_⟩
        · rw [lightsFieldAt_mk_some, h2]
          rfl
        · rw [lightsPass_lightingInfo, dictLightEntries_ldict, ← hml,
            ← animationsPass_lightingInfo disk root name1 m]
          exact validateLightCacheAsset_forall₂ _ _

/-!
## `light_tool.py`: `build_light_image`

The rasterizer's per-pixel arithmetic (`math.hypot`, `math.pow`,
`lround`) is embedded over exact reals; `LightDefinition` mirrors the
dataclass, of which only `radius` and `fall_off` enter the image. -/

structure LightDefinition where
  intensity : ℤ
  radius : ℤ
  fall_off : ℤ
  flare : ℤ
  flicker_speed : ℤ
  flicker_smoothness : ℤ
  offset_x : ℤ
  offset_y : ℤ
  color : ℤ × ℤ × ℤ
  in_front : Bool
  behind : Bool
  render_to_dark_mask : Bool
  render_front_and_back_to_asset_alpha_mask : Bool

/-- `clamp(value, low, high)` from `light_tool.py`. -/
noncomputable def clampR (v lo hi : ℝ) : ℝ := max lo (min hi v)

/-- `compute_fade_exponent(fall_off)`. -/
noncomputable def computeFadeExponent (fallOff : ℤ) : ℝ :=
  0.6 + 3.4 * clampR ((fallOff : ℝ) / 100) 0 1

/-- `lround(value)` (half away from zero, as the comment in the source
says, matching `std::lround`). -/
noncomputable def lroundR (x : ℝ) : ℤ :=
  if 0 ≤ x then ⌊x + 1 / 2⌋ else ⌈x - 1 / 2⌉

/-- The side length of the image `build_light_image` allocates. -/
def buildLightImageSize (l : LightDefinition) : ℕ := (max 1 (max 1 l.radius * 2)).toNat

/-- The pixel `build_light_image` writes at `(x, y)`. -/
noncomputable def buildLightImagePixel (l : LightDefinition) (x y : ℕ) : ℤ × ℤ × ℤ × ℤ :=
  let radius := max 1 l.radius
  let diameter := max 1 (radius * 2)
  let center := (diameter : ℝ) * 0.5
  let fadeExponent := computeFadeExponent l.fall_off
  let dx := ((x : ℝ) + 0.5) - center
  let dy := ((y : ℝ) + 0.5) - center
  let dist := Real.sqrt (dx ^ 2 + dy ^ 2)
  let ratio := if 0 < (radius : ℝ) then dist / (radius : ℝ) else 0
  let ratio := clampR ratio 0 1
  let base := max 0 (1 - ratio)
  let alphaRatio := base ^ fadeExponent
  let alpha := lroundR (alphaRatio * 255)
  let alpha := max 0 (min 255 alpha)
  (255, 255, 255, alpha)

/-- Rounding half away from zero, as the specification words it. -/
noncomputable def roundHalfAway (x : ℝ) : ℤ :=
  if 0 ≤ x then ⌊x + 1 / 2⌋ else -⌊-x + 1 / 2⌋

/-- The claim's per-pixel ratio: `clamp(distanceFromCenter / radius, 0,
1)` with the pixel-center convention of the code and the image center at
`radius`. -/
noncomputable def claimRatio (l : LightDefinition) (x y : ℕ) : ℝ :=
  clampR (Real.sqrt ((((x : ℝ) + 0.5) - (l.radius : ℝ)) ^ 2
      + (((y : ℝ) + 0.5) - (l.radius : ℝ)) ^ 2) / (l.radius : ℝ)) 0 1

theorem clampR_mem (v lo hi : ℝ) (h : lo ≤ hi) : lo ≤ clampR v lo hi ∧ clampR v lo hi ≤ hi :=
  ⟨le_max_left lo _, max_le h (min_le_left hi v)⟩

theorem computeFadeExponent_pos (fallOff : ℤ) : 0 < computeFadeExponent fallOff := by
  have h := (clampR_mem ((fallOff : ℝ) / 100) 0 1 (by norm_num)).1
  rw [computeFadeExponent]
  nlinarith

/-- C6: for every light definition produced by `parse_light_entry` (whose
radius is at least 1), `build_light_image` yields a square image of side
`2*radius` in which every pixel is white with alpha
`round(255*(1-ratio)^fadeExponent)` (half away from zero), `ratio =
clamp(distanceFromCenter/radius, 0, 1)` and `fadeExponent = 0.6 +
3.4*clamp(fall_off/100, 0, 1)`. -/
theorem build_light_image_spec (l : LightDefinition) (hr : 1 ≤ l.radius) :
    buildLightImageSize l = (2 * l.radius).toNat
    ∧ ∀ x y : ℕ, buildLightImagePixel l x y
        = (255, 255, 255,
            roundHalfAway (255 * (1 - claimRatio l x y) ^ computeFadeExponent l.fall_off)) := by
  have hmax : max 1 l.radius = l.radius := max_eq_right hr
  constructor
  · rw [buildLightImageSize, hmax]
    have h2 : max 1 (l.radius * 2) = l.radius * 2 := max_eq_right (by omega)
    rw [h2]
    congr 1
    omega
  · intro x y
    rw [buildLightImagePixel]
    simp only [hmax]
    have h2 : max 1 (l.radius * 2) = l.radius * 2 := max_eq_right (by omega)
    rw [h2]
    have hrpos : (0 : ℝ) < (l.radius : ℝ) := by exact_mod_cast hr
    rw [if_pos hrpos]
    have hcenter : ((l.radius * 2 : ℤ) : ℝ) * 0.5 = (l.radius : ℝ) := by
      push_cast
      ring
    rw [hcenter]
    have hratio :
        clampR (Real.sqrt ((((x : ℝ) + 0.5) - (l.radius : ℝ)) ^ 2
            + (((y : ℝ) + 0.5) - (l.radius : ℝ)) ^ 2) / (l.radius : ℝ)) 0 1
          = claimRatio l x y := rfl
    rw [hratio]
    obtain ⟨hr0, hr1⟩ := clampR_mem (Real.sqrt ((((x : ℝ) + 0.5) - (l.radius : ℝ)) ^ 2
        + (((y : ℝ) + 0.5) - (l.radius : ℝ)) ^ 2) / (l.radius : ℝ)) 0 1 (by norm_num)
    have hbase : max 0 (1 - claimRatio l x y) = 1 - claimRatio l x y := by
      apply max_eq_right
      have : claimRatio l x y ≤ 1 := hr1
      linarith
    rw [hbase]
    set E := computeFadeExponent l.fall_off with hE
    set b := 1 - claimRatio l x y with hb
    have hb0 : 0 ≤ b := by
      have : claimRatio l x y ≤ 1 := hr1
      rw [hb]; linarith
    have hb1 : b ≤ 1 := by
      have : (0 : ℝ) ≤ claimRatio l x y := hr0
      rw [hb]; linarith
    have hαR0 : 0 ≤ b ^ E := Real.rpow_nonneg hb0 E
    have hαR1 : b ^ E ≤ 1 := Real.rpow_le_one hb0 hb1 (computeFadeExponent_pos l.fall_off).le
    have hx0 : (0 : ℝ) ≤ b ^ E * 255 := by positivity
    have halpha0 : 0 ≤ lroundR (b ^ E * 255) := by
      rw [lroundR, if_pos hx0]
      exact Int.floor_nonneg.mpr (by linarith)
    have halpha255 : lroundR (b ^ E * 255) ≤ 255 := by
      rw [lroundR, if_pos hx0]
      have hle : (⌊b ^ E * 255 + 1 / 2⌋ : ℝ) ≤ b ^ E * 255 + 1 / 2 := Int.floor_le _
      have hub : b ^ E * 255 + 1 / 2 ≤ 255 + 1 / 2 := by nlinarith
      have : ((⌊b ^ E * 255 + 1 / 2⌋ : ℤ) : ℝ) < 256 := by linarith
      have hlt : ⌊b ^ E * 255 + 1 / 2⌋ < 256 := by exact_mod_cast this
      omega
    have hclamp : max 0 (min 255 (lroundR (b ^ E * 255))) = lroundR (b ^ E * 255) := by
      rw [min_eq_right halpha255, max_eq_right halpha0]
    rw [hclamp]
    have hround : lroundR (b ^ E * 255) = roundHalfAway (255 * b ^ E) := by
      rw [lroundR, roundHalfAway, if_pos hx0, if_pos (by linarith : (0:ℝ) ≤ 255 * b ^ E),
        mul_comm (b ^ E) 255]
    rw [hround]

/-- Closed-form witness for the C6 theorem at the dataclass defaults
(radius 64, fall_off 50). -/
theorem build_light_image_spec_witness :
    buildLightImageSize
        ⟨255, 64, 50, 0, 0, 100, 0, 0, (255, 255, 255), false, false, false, false⟩
      = (2 * (64 : ℤ)).toNat
    ∧ ∀ x y : ℕ,
        buildLightImagePixel
            ⟨255, 64, 50, 0, 0, 100, 0, 0, (255, 255, 255), false, false, false, false⟩ x y
          = (255, 255, 255,
              roundHalfAway (255 * (1 - claimRatio
                  ⟨255, 64, 50, 0, 0, 100, 0, 0, (255, 255, 255), false, false, false, false⟩
                  x y) ^ computeFadeExponent 50)) :=
  build_light_image_spec
    ⟨255, 64, 50, 0, 0, 100, 0, 0, (255, 255, 255), false, false, false, false⟩ (by decide)

end Pipeline
